import Mathlib

/-!
Verification of the order-processing core of the acacia-reads bookstore
backend (`app/gql/order/mutations.py`, `app/gql/order/schemas.py`,
`app/db/models.py`).

The relational store is embedded shallowly: each SQLAlchemy model becomes a
structure, the database becomes lists of rows, and each mutation becomes a
function from a store to `Except GqlError Store`.  A `.error` outcome models
the session rolling back (the Python code raises inside the session context
manager, or calls `session.rollback()` explicitly), so the committed store is
unchanged; `.ok s'` models a successful `session.commit()` producing the new
committed state `s'`.

Columns declared `nullable=False` with no default and never assigned by the
mutation code are embedded as `Option` fields holding `none`; the NOT NULL
constraint is enforced at the flush/commit points exactly where the database
would raise `IntegrityError`.

The embedding keeps the source's reading discipline: `books_map` in the
mutations is built only from the book ids of the incoming request
(`booksMapGet` guards every lookup with membership in the requested id list),
existing order items are read through their live session rows, and the
removal pass of `UpdateOrder` iterates the snapshot of pre-call items.

The model, like the database schema and the spec's data-model invariants,
keeps book ids unique and at most one item row per (order, book); the
`Store.WF` predicate states this together with non-negative stock.
-/

namespace AcaciaReads

/-- Order statuses from `app/db/enumerated_types.py` (class OrderStatus). -/
inductive OrderStatus where
  | PENDING
  | SHIPPED
  | DELIVERED
deriving DecidableEq, Repr

/-- Row of the `books` table (`app/db/models.py`, class Book).  The float
`price` is embedded as an integer number of currency minor units; no claim
computes with prices. -/
structure Book where
  book_id : String
  title : String
  isbn : String
  price : Int
  category : String
  stock_count : Int
deriving DecidableEq, Repr

/-- Row of the `orders` table (`app/db/models.py`, class Order).
`order_status` is `nullable=False` with no default in the source; the field
is `Option`-valued so that a row created without a status carries `none`
(SQL NULL), to be rejected by the NOT NULL check at flush time. -/
structure OrderRow where
  order_id : String
  user_id : String
  order_status : Option OrderStatus
deriving DecidableEq, Repr

/-- Row of the `order_items` table (`app/db/models.py`, class OrderItem).
`unit_price` is `nullable=False` in the source but the mutations never assign
it, so newly built rows carry `none` (SQL NULL). -/
structure OrderItemRow where
  order_item_id : Nat
  order_id : String
  book_id : String
  quantity : Int
  unit_price : Option Int
deriving DecidableEq, Repr

/-- The committed relational state: the three tables the order workflow
touches, plus the autoincrement counter for `order_items.order_item_id`. -/
structure Store where
  books : List Book
  orders : List OrderRow
  order_items : List OrderItemRow
  next_item_id : Nat
deriving DecidableEq, Repr

/-- GraphQL input `OrderItemInput` (`app/gql/order/mutations.py`). -/
structure OrderItemInput where
  book_id : String
  quantity : Int
deriving DecidableEq, Repr

/-- Pydantic `OrderItemSchema` (`app/gql/order/schemas.py`): `book_id` has
`min_length=22, max_length=22`, `quantity` has `gt=0`. -/
def validOrderItem (i : OrderItemInput) : Bool :=
  i.book_id.length == 22 && 0 < i.quantity

/-- Pydantic `OrderSchema`: a bare `list[OrderItemSchema]` — each element is
validated, but there is no minimum length and no duplicate check. -/
def validOrderSchema (items : List OrderItemInput) : Bool :=
  items.all validOrderItem

/-- One value per `raise GraphQLError(...)` site (and per distinct message)
in `app/gql/order/mutations.py`. -/
inductive GqlError where
  | validationError
  | bookNotFound (book_id : String)
  | insufficientStock (book_id : String) (requested available : Int)
  | additionalInsufficientStock (book_id : String) (requested available : Int)
  | newItemInsufficientStock (book_id : String) (requested available : Int)
  | notFoundOrUnauthorized
  | addConstraintError
  | updateConstraintError
  | unexpectedError
deriving DecidableEq, Repr

/-- First row of `books` with the given primary key, as returned by the
bulk `select(Book).filter(Book.book_id.in_(...))` query. -/
def lookupBook (books : List Book) (bid : String) : Option Book :=
  books.find? (fun b => b.book_id == bid)

/-- `books_map.get(bid)`: the mutations build `books_map` only from the book
ids of the incoming request, so a lookup hits only when `bid` was requested. -/
def booksMapGet (books : List Book) (requested : List String) (bid : String) :
    Option Book :=
  if requested.contains bid then lookupBook books bid else none

/-- Session-level decrement of one book's stock
(`book.stock_count -= delta` on the mapped row). -/
def decStock (books : List Book) (bid : String) (delta : Int) : List Book :=
  books.map (fun b =>
    if b.book_id == bid then { b with stock_count := b.stock_count - delta } else b)

/-- Step 3 of `AddOrder.mutate`: for each item, existence then stock check,
performed before any session mutation. -/
def checkStock (books : List Book) (requested : List String) :
    List OrderItemInput → Except GqlError Unit
  | [] => .ok ()
  | item :: rest =>
    match booksMapGet books requested item.book_id with
    | none => .error (.bookNotFound item.book_id)
    | some book =>
      if book.stock_count < item.quantity then
        .error (.insufficientStock item.book_id item.quantity book.stock_count)
      else
        checkStock books requested rest

/-- Step 5 of `AddOrder.mutate`: build an `OrderItem` per requested item
(no `unit_price` argument is passed, so the column stays NULL) and decrement
the session stock.  Returns the session books, the pending item rows and the
next autoincrement id. -/
def addItems (requested : List String) (oid : String) :
    List OrderItemInput → List Book → List OrderItemRow → Nat →
    Except GqlError (List Book × List OrderItemRow × Nat)
  | [], books, acc, nid => .ok (books, acc, nid)
  | item :: rest, books, acc, nid =>
    match booksMapGet books requested item.book_id with
    | none => .error .unexpectedError
    | some _ =>
      let row : OrderItemRow :=
        { order_item_id := nid, order_id := oid, book_id := item.book_id,
          quantity := item.quantity, unit_price := none }
      addItems requested oid rest (decStock books item.book_id item.quantity)
        (acc ++ [row]) (nid + 1)

/-- The order header built by `AddOrder.mutate`:
`Order(user_id=current_user.user_id)` — no `order_status` argument, and the
column has no default, so the status is NULL. -/
def mkOrderHeader (uid oid : String) : OrderRow :=
  { order_id := oid, user_id := uid, order_status := none }

/-- Stand-in for the `shortuuid` primary-key default of `orders.order_id`. -/
def freshOrderId (s : Store) : String :=
  "order-" ++ toString s.orders.length

/-- `AddOrder.mutate` (`app/gql/order/mutations.py`): validate with the
pydantic schema, bulk-load the requested books, check existence and stock for
every item, create the order header, flush it, insert items while
decrementing stock, and commit.  The flush and the commit enforce the NOT
NULL constraints of `orders.order_status` and `order_items.unit_price`; a
violation is the `IntegrityError` path, which rolls back. -/
def addOrder (s : Store) (uid : String) (order_items : List OrderItemInput) :
    Except GqlError Store :=
  if !(validOrderSchema order_items) then .error .validationError
  else
    let requested := order_items.map (fun i => i.book_id)
    match checkStock s.books requested order_items with
    | .error e => .error e
    | .ok _ =>
      let order := mkOrderHeader uid (freshOrderId s)
      if order.order_status.isNone then
        .error .addConstraintError
      else
        match addItems requested order.order_id order_items s.books []
            s.next_item_id with
        | .error e => .error e
        | .ok (books', newItems, nid) =>
          if newItems.all (fun oi => oi.unit_price.isSome) then
            .ok { books := books',
                  orders := s.orders ++ [order],
                  order_items := s.order_items ++ newItems,
                  next_item_id := nid }
          else .error .addConstraintError

/-- Session state threaded through `UpdateOrder.mutate`: the session's book
rows, the live item rows of the order being updated, the pending inserts and
the next autoincrement id. -/
structure UpdSession where
  books : List Book
  items : List OrderItemRow
  newItems : List OrderItemRow
  next_id : Nat
deriving DecidableEq, Repr

/-- The book ids of an incoming item list (`book_ids = [item.book_id ...]`). -/
def requestedIds (L : List OrderItemInput) : List String :=
  L.map (fun i => i.book_id)

/-- The order's existing item rows
(`select(OrderItem).filter(OrderItem.order_id == order_id)`). -/
def orderItemsOf (s : Store) (oid : String) : List OrderItemRow :=
  s.order_items.filter (fun r => r.order_id == oid)

/-- One iteration of step 4 of `UpdateOrder.mutate`: an item whose book id
was in the pre-call item set adjusts the live row's quantity by the stock
difference, otherwise a new row is added (again without `unit_price`).
`existingKeys` is the key set of the `existing_items` dict, fixed before the
loop; quantities are read from the live session rows. -/
def updStep (requested existingKeys : List String) (oid : String)
    (sess : UpdSession) (item : OrderItemInput) : Except GqlError UpdSession :=
  match booksMapGet sess.books requested item.book_id with
  | none => .error (.bookNotFound item.book_id)
  | some book =>
    if existingKeys.contains item.book_id then
      match sess.items.find? (fun oi => oi.book_id == item.book_id) with
      | none => .error .unexpectedError
      | some existing_item =>
        let stock_diff := item.quantity - existing_item.quantity
        if stock_diff > 0 && book.stock_count < stock_diff then
          .error (.additionalInsufficientStock item.book_id stock_diff
            book.stock_count)
        else
          .ok { sess with
                items := sess.items.map (fun oi =>
                  if oi.book_id == item.book_id then
                    { oi with quantity := item.quantity }
                  else oi),
                books := decStock sess.books item.book_id stock_diff }
    else
      if book.stock_count < item.quantity then
        .error (.newItemInsufficientStock item.book_id item.quantity
          book.stock_count)
      else
        .ok { sess with
              books := decStock sess.books item.book_id item.quantity,
              newItems := sess.newItems ++
                [{ order_item_id := sess.next_id, order_id := oid,
                   book_id := item.book_id, quantity := item.quantity,
                   unit_price := none }],
              next_id := sess.next_id + 1 }

/-- Step 4 of `UpdateOrder.mutate`: walk the new item list, stopping at the
first raised error. -/
def updItemsLoop (requested existingKeys : List String) (oid : String) :
    List OrderItemInput → UpdSession → Except GqlError UpdSession
  | [], sess => .ok sess
  | item :: rest, sess =>
    match updStep requested existingKeys oid sess item with
    | .error e => .error e
    | .ok sess' => updItemsLoop requested existingKeys oid rest sess'

/-- One iteration of step 5 of `UpdateOrder.mutate`: an item of the pre-call
snapshot whose book id was not processed is deleted, and — only if its book
is found in `books_map`, which was built from the NEW request's ids — its
quantity is added back to the book's stock. -/
def removalStep (requested processed : List String) (sess : UpdSession)
    (oi : OrderItemRow) : UpdSession :=
  if processed.contains oi.book_id then sess
  else
    let sess1 : UpdSession :=
      match booksMapGet sess.books requested oi.book_id with
      | some _ =>
        { sess with books := sess.books.map (fun b =>
            if b.book_id == oi.book_id then
              { b with stock_count := b.stock_count + oi.quantity }
            else b) }
      | none => sess
    { sess1 with
      items := sess1.items.filter (fun r => !(r.book_id == oi.book_id)) }

/-- Step 5 of `UpdateOrder.mutate`: iterate the snapshot of pre-call items. -/
def removalLoop (requested processed : List String)
    (originalItems : List OrderItemRow) (sess : UpdSession) : UpdSession :=
  originalItems.foldl (removalStep requested processed) sess

/-- The session state at the start of `UpdateOrder.mutate`'s item diff. -/
def initSession (s : Store) (oid : String) : UpdSession :=
  { books := s.books, items := orderItemsOf s oid, newItems := [],
    next_id := s.next_item_id }

/-- Step 6 of `UpdateOrder.mutate`: `session.commit()`.  Pending inserts must
satisfy the NOT NULL constraint on `unit_price`, else `IntegrityError` rolls
back. -/
def commitUpdate (s : Store) (oid : String) (sess : UpdSession) :
    Except GqlError Store :=
  if sess.newItems.all (fun oi => oi.unit_price.isSome) then
    .ok { books := sess.books,
          orders := s.orders,
          order_items :=
            s.order_items.filter (fun r => !(r.order_id == oid))
              ++ sess.items ++ sess.newItems,
          next_item_id := sess.next_id }
  else .error .updateConstraintError

/-- `UpdateOrder.mutate` (`app/gql/order/mutations.py`): validate, load the
order (absence and foreign ownership share one error), bulk-load the books of
the new list, load the order's existing items, run the diff loop, delete the
omitted items, and commit.  After the diff loop the processed id set is
exactly the requested id set. -/
def updateOrder (s : Store) (uid oid : String)
    (order_items : List OrderItemInput) : Except GqlError Store :=
  if !(validOrderSchema order_items) then .error .validationError
  else
    match s.orders.find? (fun o => o.order_id == oid) with
    | none => .error .notFoundOrUnauthorized
    | some order =>
      if order.user_id != uid then .error .notFoundOrUnauthorized
      else
        match updItemsLoop (requestedIds order_items)
            ((orderItemsOf s oid).map (fun r => r.book_id)) oid order_items
            (initSession s oid) with
        | .error e => .error e
        | .ok sess =>
          commitUpdate s oid
            (removalLoop (requestedIds order_items) (requestedIds order_items)
              (orderItemsOf s oid) sess)

/-- Committed state after a `place_order` call: a raised error means the
session rolled back, leaving the store as it was. -/
def runAdd (s : Store) (uid : String) (items : List OrderItemInput) : Store :=
  match addOrder s uid items with
  | .ok s' => s'
  | .error _ => s

/-- Committed state after an `update_order` call. -/
def runUpdate (s : Store) (uid oid : String) (items : List OrderItemInput) :
    Store :=
  match updateOrder s uid oid items with
  | .ok s' => s'
  | .error _ => s

/-- One API call of the order workflow. -/
inductive Call where
  | place (uid : String) (items : List OrderItemInput)
  | update (uid : String) (oid : String) (items : List OrderItemInput)

/-- Committed state after one call. -/
def runCall (s : Store) : Call → Store
  | .place uid items => runAdd s uid items
  | .update uid oid items => runUpdate s uid oid items

/-- Committed state after a sequence of calls. -/
def runCalls (s : Store) (cs : List Call) : Store :=
  cs.foldl runCall s

/-- Well-formed committed store: non-negative stock, unique book primary
keys, at most one item row per (order, book) — the data-model invariants the
database schema and the spec (section 3) maintain — and positive item
quantities. -/
def Store.WF (s : Store) : Prop :=
  (∀ b ∈ s.books, 0 ≤ b.stock_count) ∧
  (s.books.map Book.book_id).Nodup ∧
  s.order_items.Pairwise
    (fun r1 r2 => r1.order_id = r2.order_id → r1.book_id ≠ r2.book_id) ∧
  (∀ r ∈ s.order_items, 0 < r.quantity)

instance (s : Store) : Decidable s.WF := by
  unfold Store.WF
  infer_instance

end AcaciaReads

namespace AcaciaReads

/-! ### Basic facts: schema validation and the fate of `AddOrder` -/

theorem validOrderSchema_eq_false {L : List OrderItemInput}
    (h : ∃ i ∈ L, validOrderItem i = false) : validOrderSchema L = false := by
  rcases h with ⟨i, hi, hvi⟩
  unfold validOrderSchema
  rw [List.all_eq_false]
  exact ⟨i, hi, by simp [hvi]⟩

/-- `AddOrder.mutate` can never commit: the order header it flushes carries a
NULL `order_status` (`nullable=False`, no default, never assigned), so the
flush raises `IntegrityError` on every input that reaches it, and every
earlier step raises as well. -/
theorem addOrder_not_ok (s : Store) (uid : String) (L : List OrderItemInput)
    (s' : Store) : addOrder s uid L ≠ Except.ok s' := by
  unfold addOrder
  split
  · simp
  · dsimp only
    split
    · simp
    · simp [mkOrderHeader]

theorem runAdd_eq_self (s : Store) (uid : String) (L : List OrderItemInput) :
    runAdd s uid L = s := by
  unfold runAdd
  split
  · rename_i s' h
    exact absurd h (addOrder_not_ok s uid L s')
  · rfl

/-! ### Concrete fixtures used by witnesses and counterexamples -/

/-- A 22-character book id, as `books.book_id` is a `String(22)` shortuuid. -/
def demoBid1 : String := "b1b1b1b1b1b1b1b1b1b1b1"

def demoBid2 : String := "b2b2b2b2b2b2b2b2b2b2b2"

def demoBook1 : Book :=
  { book_id := demoBid1, title := "T1", isbn := "i1", price := 500,
    category := "FICTION", stock_count := 10 }

def demoBook2 : Book :=
  { book_id := demoBid2, title := "T2", isbn := "i2", price := 700,
    category := "HISTORY", stock_count := 3 }

def demoOrder1 : OrderRow :=
  { order_id := "O1", user_id := "u1", order_status := some .PENDING }

/-- Pre-existing item: order O1 holds book 1 at quantity 4. -/
def demoItem1 : OrderItemRow :=
  { order_item_id := 0, order_id := "O1", book_id := demoBid1, quantity := 4,
    unit_price := some 500 }

def demoStore : Store :=
  { books := [demoBook1, demoBook2], orders := [demoOrder1],
    order_items := [demoItem1], next_item_id := 1 }

/-- A store that also contains a book whose primary key is shorter than 22
characters (conceivable only through out-of-band inserts). -/
def demoStoreShortBook : Store :=
  { books := [demoBook1,
      { book_id := "short", title := "S", isbn := "i3", price := 100,
        category := "POETRY", stock_count := 5 }],
    orders := [demoOrder1], order_items := [demoItem1], next_item_id := 1 }

/-! ### C4 -/

/-- C4: every `place_order` request that fails at any validation or
reservation step (or at the store itself, before commit) leaves the
committed store — book stock counts, orders and order items — exactly as it
was before the call.  The error is raised inside the session and the
transaction rolls back without committing. -/
theorem claim_C4_failed_place_order_preserves_store (s : Store) (uid : String)
    (L : List OrderItemInput) (e : GqlError)
    (h : addOrder s uid L = Except.error e) : runAdd s uid L = s :=
  runAdd_eq_self s uid L

theorem claim_C4_witness :
    addOrder demoStore "u1" [⟨demoBid1, 99⟩]
      = Except.error (.insufficientStock demoBid1 99 10) ∧
    runAdd demoStore "u1" [⟨demoBid1, 99⟩] = demoStore :=
  ⟨rfl, claim_C4_failed_place_order_preserves_store demoStore "u1"
    [⟨demoBid1, 99⟩] (.insufficientStock demoBid1 99 10) rfl⟩

/-! ### C9 -/

/-- C9: an item whose `book_id` is not exactly 22 characters long fails the
pydantic length bounds (`min_length=22, max_length=22`), so both mutations
raise the validation error before the session is opened — no book lookup,
no store change — for every store, even one containing a book with that id. -/
theorem claim_C9_book_id_length_validation (s : Store) (uid oid : String)
    (L : List OrderItemInput) (h : ∃ i ∈ L, i.book_id.length ≠ 22) :
    addOrder s uid L = Except.error .validationError ∧
    updateOrder s uid oid L = Except.error .validationError ∧
    runAdd s uid L = s ∧ runUpdate s uid oid L = s := by
  have hv : validOrderSchema L = false := by
    apply validOrderSchema_eq_false
    rcases h with ⟨i, hi, hlen⟩
    refine ⟨i, hi, ?_⟩
    unfold validOrderItem
    rw [Bool.and_eq_false_iff]
    left
    simpa using hlen
  refine ⟨?_, ?_, runAdd_eq_self s uid L, ?_⟩
  · simp [addOrder, hv]
  · simp [updateOrder, hv]
  · simp [runUpdate, updateOrder, hv]

theorem claim_C9_witness :
    (∃ i ∈ [(⟨"short", 3⟩ : OrderItemInput)], i.book_id.length ≠ 22) ∧
    addOrder demoStoreShortBook "u1" [⟨"short", 3⟩]
      = Except.error .validationError ∧
    runUpdate demoStoreShortBook "u1" "O1" [⟨"short", 3⟩]
      = demoStoreShortBook :=
  have h : ∃ i ∈ [(⟨"short", 3⟩ : OrderItemInput)], i.book_id.length ≠ 22 :=
    ⟨⟨"short", 3⟩, by simp, by decide⟩
  ⟨h, (claim_C9_book_id_length_validation demoStoreShortBook "u1" "O1"
      [⟨"short", 3⟩] h).1,
    (claim_C9_book_id_length_validation demoStoreShortBook "u1" "O1"
      [⟨"short", 3⟩] h).2.2.2⟩

end AcaciaReads

namespace AcaciaReads

/-! ### C5 -/

/-- C5 counterexample: the pydantic `OrderSchema` is a bare
`list[OrderItemSchema]` with no minimum length and no uniqueness constraint,
so an empty item list and a list repeating one book id both pass validation.
Concretely, `update_order` on an owned order succeeds (commits) for the empty
list and for a duplicated book id, instead of failing with the validation
error the claim requires. -/
theorem claim_C5_counterexample :
    validOrderSchema [] = true ∧
    updateOrder demoStore "u1" "O1" []
      = Except.ok { books := [demoBook1, demoBook2], orders := [demoOrder1],
                    order_items := [], next_item_id := 1 } ∧
    validOrderSchema [⟨demoBid1, 5⟩, ⟨demoBid1, 3⟩] = true ∧
    updateOrder demoStore "u1" "O1" [⟨demoBid1, 5⟩, ⟨demoBid1, 3⟩]
      = Except.ok { books := [{ demoBook1 with stock_count := 11 }, demoBook2],
                    orders := [demoOrder1],
                    order_items := [{ demoItem1 with quantity := 3 }],
                    next_item_id := 1 } :=
  ⟨rfl, rfl, rfl, rfl⟩

/-- C5 (amended): schema validation rejects any item with a non-positive
quantity before the session is opened, for both mutations; empty item lists
and duplicate book ids are not rejected. -/
theorem claim_C5_nonpositive_quantity_validation (s : Store) (uid oid : String)
    (L : List OrderItemInput) (h : ∃ i ∈ L, i.quantity ≤ 0) :
    addOrder s uid L = Except.error .validationError ∧
    updateOrder s uid oid L = Except.error .validationError ∧
    runAdd s uid L = s ∧ runUpdate s uid oid L = s := by
  have hv : validOrderSchema L = false := by
    apply validOrderSchema_eq_false
    rcases h with ⟨i, hi, hq⟩
    refine ⟨i, hi, ?_⟩
    unfold validOrderItem
    rw [Bool.and_eq_false_iff]
    right
    simpa using not_lt.mpr hq
  refine ⟨?_, ?_, runAdd_eq_self s uid L, ?_⟩
  · simp [addOrder, hv]
  · simp [updateOrder, hv]
  · simp [runUpdate, updateOrder, hv]

theorem claim_C5_witness :
    (∃ i ∈ [(⟨demoBid1, 0⟩ : OrderItemInput)], i.quantity ≤ 0) ∧
    addOrder demoStore "u1" [⟨demoBid1, 0⟩] = Except.error .validationError ∧
    runUpdate demoStore "u1" "O1" [⟨demoBid1, 0⟩] = demoStore :=
  have h : ∃ i ∈ [(⟨demoBid1, 0⟩ : OrderItemInput)], i.quantity ≤ 0 :=
    ⟨⟨demoBid1, 0⟩, by simp, by decide⟩
  ⟨h, (claim_C5_nonpositive_quantity_validation demoStore "u1" "O1"
      [⟨demoBid1, 0⟩] h).1,
    (claim_C5_nonpositive_quantity_validation demoStore "u1" "O1"
      [⟨demoBid1, 0⟩] h).2.2.2⟩

/-! ### C8 -/

/-- C8 counterexample: schema validation runs before the order lookup, so a
call whose payload is invalid fails with the validation error even when the
order id does not exist — not with the merged not-found/unauthorized error
the claim requires for every such call. -/
theorem claim_C8_counterexample :
    demoStore.orders.find? (fun o => o.order_id == "OX") = none ∧
    updateOrder demoStore "u1" "OX" [⟨demoBid1, 0⟩]
      = Except.error .validationError ∧
    GqlError.validationError ≠ GqlError.notFoundOrUnauthorized :=
  ⟨rfl, rfl, by decide⟩

/-- C8 (amended): provided the item list passes schema validation, an
`update_order` whose order id is absent, or whose order belongs to another
principal, fails with the single merged error of the one raise site
(`"Order not found or not authorized to update."`) — the two causes are
indistinguishable — and the store is unchanged. -/
theorem claim_C8_merged_not_found_unauthorized (s : Store) (uid oid : String)
    (L : List OrderItemInput) (hval : validOrderSchema L = true)
    (h : s.orders.find? (fun o => o.order_id == oid) = none ∨
      ∃ o, s.orders.find? (fun o => o.order_id == oid) = some o ∧
        o.user_id ≠ uid) :
    updateOrder s uid oid L = Except.error .notFoundOrUnauthorized ∧
    runUpdate s uid oid L = s := by
  have h1 : updateOrder s uid oid L = Except.error .notFoundOrUnauthorized := by
    unfold updateOrder
    rw [hval]
    rcases h with h | ⟨o, hfind, hne⟩
    · simp [h]
    · simp [hfind, hne]
  exact ⟨h1, by simp [runUpdate, h1]⟩

theorem claim_C8_witness :
    (validOrderSchema [(⟨demoBid1, 2⟩ : OrderItemInput)] = true ∧
      updateOrder demoStore "u2" "O1" [⟨demoBid1, 2⟩]
        = Except.error .notFoundOrUnauthorized ∧
      runUpdate demoStore "u2" "O1" [⟨demoBid1, 2⟩] = demoStore) ∧
    (updateOrder demoStore "u1" "missing" [⟨demoBid1, 2⟩]
      = Except.error .notFoundOrUnauthorized ∧
      runUpdate demoStore "u1" "missing" [⟨demoBid1, 2⟩] = demoStore) :=
  ⟨⟨rfl,
    claim_C8_merged_not_found_unauthorized demoStore "u2" "O1" [⟨demoBid1, 2⟩]
      rfl (Or.inr ⟨demoOrder1, rfl, by decide⟩)⟩,
    claim_C8_merged_not_found_unauthorized demoStore "u1" "missing"
      [⟨demoBid1, 2⟩] rfl (Or.inl rfl)⟩

/-! ### C1 -/

/-- C1: the removal pass of `UpdateOrder.mutate` looks the omitted book up in
`books_map`, which was built only from the ids of the NEW item list; an
omitted id is by definition not in that list, so the lookup misses and the
`if book:` guard silently skips the stock restoration.  Concretely: order O1
holds book 1 at quantity 4 and the book has stock 10; updating with the empty
list succeeds and deletes the item, but the stock stays 10 instead of
becoming 14.  The code contradicts its own `# restore stock` comment and the
spec. -/
theorem claim_C1_removal_does_not_restore_stock :
    updateOrder demoStore "u1" "O1" []
      = Except.ok { books := [demoBook1, demoBook2], orders := [demoOrder1],
                    order_items := [], next_item_id := 1 } ∧
    demoItem1.quantity = 4 ∧ demoBook1.stock_count = 10 ∧
    (runUpdate demoStore "u1" "O1" []).books = demoStore.books :=
  ⟨rfl, rfl, rfl, rfl⟩

/-! ### C2 -/

/-- C2: neither mutation ever assigns `unit_price` when constructing an
`OrderItem`, although the column is `nullable=False`; the row the update
loop builds for a new item carries NULL, so the insert violates the NOT NULL
constraint and the whole call fails — no OrderItem with a snapshotted unit
price is ever persisted, and `place_order` cannot succeed at all. -/
theorem claim_C2_unit_price_never_assigned :
    addOrder demoStore "u1" [⟨demoBid1, 3⟩]
      = Except.error .addConstraintError ∧
    (match updItemsLoop [demoBid1, demoBid2] [demoBid1] "O1"
        [⟨demoBid1, 4⟩, ⟨demoBid2, 1⟩]
        { books := [demoBook1, demoBook2], items := [demoItem1],
          newItems := [], next_id := 1 } with
      | Except.ok sess => sess.newItems.map (fun r => r.unit_price)
      | Except.error _ => [some 0]) = [none] ∧
    updateOrder demoStore "u1" "O1" [⟨demoBid1, 4⟩, ⟨demoBid2, 1⟩]
      = Except.error .updateConstraintError ∧
    runUpdate demoStore "u1" "O1" [⟨demoBid1, 4⟩, ⟨demoBid2, 1⟩] = demoStore :=
  ⟨rfl, rfl, rfl, rfl⟩

/-! ### C6 -/

/-- C6: the `orders.order_status` column is `nullable=False` with NO default
in the schema, and `AddOrder.mutate` sets no status either; the flushed
header carries NULL, the flush raises `IntegrityError`, and order placement
never commits — no order is ever created, let alone one with status PENDING
from a schema default. -/
theorem claim_C6_no_status_default :
    (mkOrderHeader "u1" (freshOrderId demoStore)).order_status = none ∧
    addOrder demoStore "u1" [⟨demoBid2, 1⟩]
      = Except.error .addConstraintError ∧
    (runAdd demoStore "u1" [⟨demoBid2, 1⟩]).orders = demoStore.orders :=
  ⟨rfl, rfl, rfl⟩

end AcaciaReads

namespace AcaciaReads

/-- Every Book field except the mutable `stock_count`. -/
def Book.frame (b : Book) : String × String × String × Int × String :=
  (b.book_id, b.title, b.isbn, b.price, b.category)

/-- Every OrderItemRow field except the mutable `quantity`. -/
def OrderItemRow.frame (r : OrderItemRow) : Nat × String × String × Option Int :=
  (r.order_item_id, r.order_id, r.book_id, r.unit_price)

theorem map_frame_stock_update (books : List Book) (bid : String)
    (g : Int → Int) :
    (books.map (fun b =>
      if b.book_id == bid then { b with stock_count := g b.stock_count }
      else b)).map Book.frame = books.map Book.frame := by
  rw [List.map_map]
  apply List.map_congr_left
  intro b _
  simp only [Function.comp_apply]
  split <;> rfl

theorem decStock_map_frame (books : List Book) (bid : String) (δ : Int) :
    (decStock books bid δ).map Book.frame = books.map Book.frame :=
  map_frame_stock_update books bid (fun x => x - δ)

theorem map_frame_qty_update (items : List OrderItemRow) (bid : String)
    (q : Int) :
    ((items.map (fun oi =>
      if oi.book_id == bid then { oi with quantity := q } else oi)).map
        OrderItemRow.frame) = items.map OrderItemRow.frame := by
  rw [List.map_map]
  apply List.map_congr_left
  intro r _
  simp only [Function.comp_apply]
  split <;> rfl

/-- Facts preserved by every successful diff-loop iteration: book rows change
only in `stock_count`, item rows only in `quantity`, and pending inserts only
grow, by rows whose `unit_price` is NULL. -/
theorem updStep_ok_frames {req eK : List String} {oid : String}
    {sess : UpdSession} {item : OrderItemInput} {sess' : UpdSession}
    (h : updStep req eK oid sess item = Except.ok sess') :
    sess'.books.map Book.frame = sess.books.map Book.frame ∧
    sess'.items.map OrderItemRow.frame = sess.items.map OrderItemRow.frame ∧
    ∃ ex, sess'.newItems = sess.newItems ++ ex ∧ (∀ r ∈ ex, r.unit_price = none)
      ∧ sess'.next_id = sess.next_id + ex.length := by
  unfold updStep at h
  split at h
  · exact absurd h (by simp)
  · split at h
    · split at h
      · exact absurd h (by simp)
      · dsimp only at h
        split at h
        · exact absurd h (by simp)
        · rw [Except.ok.injEq] at h
          subst h
          refine ⟨decStock_map_frame _ _ _, map_frame_qty_update _ _ _,
            [], by simp, by simp, by simp⟩
    · split at h
      · exact absurd h (by simp)
      · rw [Except.ok.injEq] at h
        subst h
        exact ⟨decStock_map_frame _ _ _, rfl,
          [{ order_item_id := sess.next_id, order_id := oid,
             book_id := item.book_id, quantity := item.quantity,
             unit_price := none }], rfl, by simp, rfl⟩

theorem updItemsLoop_ok_frames {req eK : List String} {oid : String}
    {L : List OrderItemInput} {sess sess' : UpdSession}
    (h : updItemsLoop req eK oid L sess = Except.ok sess') :
    sess'.books.map Book.frame = sess.books.map Book.frame ∧
    sess'.items.map OrderItemRow.frame = sess.items.map OrderItemRow.frame ∧
    ∃ ex, sess'.newItems = sess.newItems ++ ex ∧ (∀ r ∈ ex, r.unit_price = none)
      ∧ sess'.next_id = sess.next_id + ex.length := by
  induction L generalizing sess with
  | nil =>
    rw [updItemsLoop, Except.ok.injEq] at h
    subst h
    exact ⟨rfl, rfl, [], by simp, by simp, by simp⟩
  | cons item rest ih =>
    rw [updItemsLoop] at h
    split at h
    · exact absurd h (by simp)
    · rename_i sess1 hstep
      obtain ⟨hb1, hi1, ex1, hn1, hp1, hx1⟩ := updStep_ok_frames hstep
      obtain ⟨hb2, hi2, ex2, hn2, hp2, hx2⟩ := ih h
      refine ⟨hb2.trans hb1, hi2.trans hi1, ex1 ++ ex2, ?_, ?_, ?_⟩
      · rw [hn2, hn1, List.append_assoc]
      · intro r hr
        rcases List.mem_append.mp hr with hr | hr
        · exact hp1 r hr
        · exact hp2 r hr
      · rw [hx2, hx1, List.length_append, Nat.add_assoc]

/-- With `processed = requested`, the stock-restoring branch of the removal
pass is dead: an unprocessed book id is not in the requested list, so
`books_map` misses and only the item deletion happens. -/
theorem removalStep_eq (req : List String) (sess : UpdSession)
    (oi : OrderItemRow) :
    removalStep req req sess oi =
      if req.contains oi.book_id then sess
      else { sess with
             items := sess.items.filter (fun r => !(r.book_id == oi.book_id)) } := by
  unfold removalStep
  split
  · rfl
  · rename_i hc
    have hmg : booksMapGet sess.books req oi.book_id = none := by
      unfold booksMapGet
      rw [if_neg hc]
    rw [hmg]

theorem removalLoop_fields (req : List String) (orig : List OrderItemRow)
    (sess : UpdSession) :
    (removalLoop req req orig sess).books = sess.books ∧
    (removalLoop req req orig sess).newItems = sess.newItems ∧
    (removalLoop req req orig sess).next_id = sess.next_id := by
  induction orig generalizing sess with
  | nil => exact ⟨rfl, rfl, rfl⟩
  | cons oi rest ih =>
    have hstep : removalLoop req req (oi :: rest) sess
        = removalLoop req req rest (removalStep req req sess oi) := rfl
    rw [hstep]
    by_cases hc : req.contains oi.book_id = true
    · have he : removalStep req req sess oi = sess := by
        rw [removalStep_eq, if_pos hc]
      rw [he]
      exact ih sess
    · have he : removalStep req req sess oi
          = { sess with
              items := sess.items.filter (fun r => !(r.book_id == oi.book_id)) } := by
        rw [removalStep_eq, if_neg hc]
      rw [he]
      exact ih _

theorem removalLoop_items_pred {p : OrderItemRow → Prop}
    (req : List String) (orig : List OrderItemRow) (sess : UpdSession)
    (h : ∀ r ∈ sess.items, p r) :
    ∀ r ∈ (removalLoop req req orig sess).items, p r := by
  induction orig generalizing sess with
  | nil => exact h
  | cons oi rest ih =>
    have hstep : removalLoop req req (oi :: rest) sess
        = removalLoop req req rest (removalStep req req sess oi) := rfl
    rw [hstep]
    apply ih
    rw [removalStep_eq]
    split
    · exact h
    · intro r hr
      exact h r (List.mem_of_mem_filter hr)


end AcaciaReads

namespace AcaciaReads

theorem commitUpdate_ok_inv {s : Store} {oid : String} {sessR : UpdSession}
    {s' : Store} (h : commitUpdate s oid sessR = Except.ok s') :
    sessR.newItems.all (fun oi => oi.unit_price.isSome) = true ∧
    s' = { books := sessR.books, orders := s.orders,
           order_items :=
             s.order_items.filter (fun r => !(r.order_id == oid))
               ++ sessR.items ++ sessR.newItems,
           next_item_id := sessR.next_id } := by
  unfold commitUpdate at h
  split at h
  · refine ⟨by assumption, ?_⟩
    rw [Except.ok.injEq] at h
    exact h.symm
  · exact absurd h (by simp)

/-- Inversion of a successful `update_order`: validation passed, the order
was found and owned by the caller, the diff loop succeeded, and the commit
succeeded on the post-removal session. -/
theorem updateOrder_ok_inv {s : Store} {uid oid : String}
    {L : List OrderItemInput} {s' : Store}
    (h : updateOrder s uid oid L = Except.ok s') :
    validOrderSchema L = true ∧
    (∃ order, s.orders.find? (fun o => o.order_id == oid) = some order ∧
      order.user_id = uid) ∧
    ∃ sess, updItemsLoop (requestedIds L)
        ((orderItemsOf s oid).map (fun r => r.book_id)) oid L
        (initSession s oid) = Except.ok sess ∧
      commitUpdate s oid (removalLoop (requestedIds L) (requestedIds L)
        (orderItemsOf s oid) sess) = Except.ok s' := by
  unfold updateOrder at h
  split at h
  · exact absurd h (by simp)
  · rename_i hval
    split at h
    · exact absurd h (by simp)
    · rename_i order hfind
      split at h
      · exact absurd h (by simp)
      · rename_i hne
        split at h
        · exact absurd h (by simp)
        · rename_i sess hloop
          refine ⟨by simpa using hval, ⟨order, hfind, by simpa using hne⟩,
            sess, hloop, h⟩

/-- Rows related by equal `OrderItemRow.frame` lists satisfy the same
per-row facts about `order_id`. -/
theorem items_order_id_of_frame_eq {items' items : List OrderItemRow}
    {oid : String}
    (hframe : items'.map OrderItemRow.frame = items.map OrderItemRow.frame)
    (h : ∀ r ∈ items, r.order_id = oid) :
    ∀ r ∈ items', r.order_id = oid := by
  have hm : items'.map (fun r => r.order_id) = items.map (fun r => r.order_id) := by
    have h2 := congrArg
      (List.map (fun t : Nat × String × String × Option Int => t.2.1)) hframe
    rwa [List.map_map, List.map_map] at h2
  intro r hr
  have hmem : r.order_id ∈ items'.map (fun r => r.order_id) :=
    List.mem_map_of_mem _ hr
  rw [hm] at hmem
  obtain ⟨r0, hr0, he⟩ := List.mem_map.mp hmem
  rw [← he]
  exact h r0 hr0

theorem orderItemsOf_order_id (s : Store) (oid : String) :
    ∀ r ∈ orderItemsOf s oid, r.order_id = oid := by
  intro r hr
  have := List.of_mem_filter hr
  simpa using this

/-- C10: a successful `update_order` changes nothing but the order's item
rows and book stock counts. -/
theorem claim_C10_update_is_frame_preserving (s : Store) (uid oid : String)
    (L : List OrderItemInput) (s' : Store)
    (h : updateOrder s uid oid L = Except.ok s') :
    s'.orders = s.orders ∧
    s'.books.map Book.frame = s.books.map Book.frame ∧
    s'.order_items.filter (fun r => !(r.order_id == oid))
      = s.order_items.filter (fun r => !(r.order_id == oid)) ∧
    s'.next_item_id = s.next_item_id := by
  obtain ⟨hval, ⟨order, hfind, hown⟩, sess, hloop, hcommit⟩ := updateOrder_ok_inv h
  obtain ⟨hall, hs'⟩ := commitUpdate_ok_inv hcommit
  obtain ⟨hbR, hnR, hxR⟩ :=
    removalLoop_fields (requestedIds L) (orderItemsOf s oid) sess
  obtain ⟨hbL, hiL, ex, hnL, hpL, hxL⟩ := updItemsLoop_ok_frames hloop
  have hsessnew : sess.newItems = ex := by simpa using hnL
  have hexnil : ex = [] := by
    cases ex with
    | nil => rfl
    | cons r t =>
      exfalso
      rw [hnR, hsessnew] at hall
      have hr : r.unit_price = none := hpL r (by simp)
      simp [hr] at hall
  have hnew : (removalLoop (requestedIds L) (requestedIds L)
      (orderItemsOf s oid) sess).newItems = [] := by
    rw [hnR, hsessnew, hexnil]
  have hitems_sess : ∀ r ∈ sess.items, r.order_id = oid :=
    items_order_id_of_frame_eq hiL (orderItemsOf_order_id s oid)
  have hitemsR : ∀ r ∈ (removalLoop (requestedIds L) (requestedIds L)
      (orderItemsOf s oid) sess).items, r.order_id = oid :=
    removalLoop_items_pred _ _ _ hitems_sess
  subst hs'
  refine ⟨rfl, ?_, ?_, ?_⟩
  · rw [hbR]
    exact hbL
  · rw [hnew, List.append_nil, List.filter_append]
    have h1 : (s.order_items.filter (fun r => !(r.order_id == oid))).filter
        (fun r => !(r.order_id == oid))
        = s.order_items.filter (fun r => !(r.order_id == oid)) := by
      rw [List.filter_filter]
      apply List.filter_congr
      intro r _
      rw [Bool.and_self]
    have h2 : ((removalLoop (requestedIds L) (requestedIds L)
        (orderItemsOf s oid) sess).items).filter
        (fun r => !(r.order_id == oid)) = [] := by
      rw [List.filter_eq_nil_iff]
      intro r hr
      simp [hitemsR r hr]
    rw [h1, h2, List.append_nil]
  · rw [hxR, hxL, hexnil]
    simp [initSession]


theorem claim_C10_witness :
    updateOrder demoStore "u1" "O1" [⟨demoBid1, 5⟩] = Except.ok
      { books := [{ demoBook1 with stock_count := 9 }, demoBook2],
        orders := [demoOrder1],
        order_items := [{ demoItem1 with quantity := 5 }],
        next_item_id := 1 } ∧
    ({ books := [{ demoBook1 with stock_count := 9 }, demoBook2],
       orders := [demoOrder1],
       order_items := [{ demoItem1 with quantity := 5 }],
       next_item_id := 1 } : Store).orders = demoStore.orders ∧
    ({ books := [{ demoBook1 with stock_count := 9 }, demoBook2],
       orders := [demoOrder1],
       order_items := [{ demoItem1 with quantity := 5 }],
       next_item_id := 1 } : Store).books.map Book.frame
      = demoStore.books.map Book.frame :=
  have happ := claim_C10_update_is_frame_preserving demoStore "u1" "O1"
    [⟨demoBid1, 5⟩]
    { books := [{ demoBook1 with stock_count := 9 }, demoBook2],
      orders := [demoOrder1],
      order_items := [{ demoItem1 with quantity := 5 }],
      next_item_id := 1 } rfl
  ⟨rfl, happ.1, happ.2.1⟩

end AcaciaReads

namespace AcaciaReads

theorem books_ids_of_frame_eq {books' books : List Book}
    (hframe : books'.map Book.frame = books.map Book.frame) :
    books'.map (fun b => b.book_id) = books.map (fun b => b.book_id) := by
  have h2 := congrArg
    (List.map (fun t : String × String × String × Int × String => t.1)) hframe
  rwa [List.map_map, List.map_map] at h2

/-- In a table with unique primary keys, the bulk-query lookup of a member
row's own key returns that row. -/
theorem lookupBook_of_mem {books : List Book}
    (hnodup : (books.map (fun b => b.book_id)).Nodup) {b : Book}
    (hb : b ∈ books) : lookupBook books b.book_id = some b := by
  induction books with
  | nil => cases hb
  | cons hd tl ih =>
    rcases List.mem_cons.mp hb with rfl | hb'
    · unfold lookupBook
      rw [List.find?_cons_of_pos _ (by simp)]
    · have hne : hd.book_id ≠ b.book_id := by
        intro he
        have : b.book_id ∈ tl.map (fun b => b.book_id) :=
          List.mem_map_of_mem _ hb'
        rw [List.map_cons] at hnodup
        exact (List.nodup_cons.mp hnodup).1 (he ▸ this)
      unfold lookupBook
      rw [List.find?_cons_of_neg _ (by simpa using hne)]
      exact ih (by rw [List.map_cons] at hnodup; exact (List.nodup_cons.mp hnodup).2) hb'

theorem lookupBook_unique {books : List Book} {bid : String} {bk : Book}
    (h : lookupBook books bid = some bk) : bk ∈ books ∧ bk.book_id = bid := by
  unfold lookupBook at h
  exact ⟨List.mem_of_find?_eq_some h, by simpa using List.find?_some h⟩

/-- A guarded session decrement keeps every stock non-negative: the touched
row is unique (primary keys) and the guard bounds the decrement. -/
theorem decStock_nonneg {books : List Book} {bid : String} {δ : Int} {bk : Book}
    (hnodup : (books.map (fun b => b.book_id)).Nodup)
    (hfind : lookupBook books bid = some bk)
    (hguard : δ ≤ 0 ∨ δ ≤ bk.stock_count)
    (hpos : ∀ b ∈ books, 0 ≤ b.stock_count) :
    ∀ b ∈ decStock books bid δ, 0 ≤ b.stock_count := by
  intro b' hb'
  unfold decStock at hb'
  obtain ⟨b, hb, he⟩ := List.mem_map.mp hb'
  by_cases hid : (b.book_id == bid) = true
  · rw [if_pos hid] at he
    have hbb : b = bk := by
      have h1 : lookupBook books b.book_id = some b := lookupBook_of_mem hnodup hb
      rw [(by simpa using hid : b.book_id = bid), hfind] at h1
      exact (Option.some.injEq _ _ ▸ h1).symm
    subst he
    rcases hguard with hg | hg
    · have := hpos b hb
      simp only
      omega
    · rw [hbb]
      simp only
      omega
  · rw [if_neg hid] at he
    subst he
    exact hpos b hb


end AcaciaReads

namespace AcaciaReads

theorem updStep_ok_nonneg {req eK : List String} {oid : String}
    {sess : UpdSession} {item : OrderItemInput} {sess' : UpdSession}
    (h : updStep req eK oid sess item = Except.ok sess')
    (hnodup : (sess.books.map (fun b => b.book_id)).Nodup)
    (hpos : ∀ b ∈ sess.books, 0 ≤ b.stock_count) :
    ∀ b ∈ sess'.books, 0 ≤ b.stock_count := by
  unfold updStep at h
  split at h
  · exact absurd h (by simp)
  · rename_i book hbg
    have hlk : lookupBook sess.books item.book_id = some book := by
      unfold booksMapGet at hbg
      split at hbg
      · exact hbg
      · exact absurd hbg (by simp)
    split at h
    · split at h
      · exact absurd h (by simp)
      · rename_i existing hfind
        dsimp only at h
        split at h
        · exact absurd h (by simp)
        · rename_i hguard
          rw [Except.ok.injEq] at h
          subst h
          apply decStock_nonneg hnodup hlk ?_ hpos
          simp only [Bool.and_eq_true, decide_eq_true_eq, not_and, not_lt,
            gt_iff_lt] at hguard
          rcases lt_or_le 0 (item.quantity - existing.quantity) with hgt | hle
          · exact Or.inr (hguard hgt)
          · exact Or.inl hle
    · split at h
      · exact absurd h (by simp)
      · rename_i hguard
        rw [Except.ok.injEq] at h
        subst h
        apply decStock_nonneg hnodup hlk ?_ hpos
        exact Or.inr (not_lt.mp (by simpa using hguard))

theorem updItemsLoop_ok_nonneg {req eK : List String} {oid : String}
    {L : List OrderItemInput} {sess sess' : UpdSession}
    (h : updItemsLoop req eK oid L sess = Except.ok sess')
    (hnodup : (sess.books.map (fun b => b.book_id)).Nodup)
    (hpos : ∀ b ∈ sess.books, 0 ≤ b.stock_count) :
    ∀ b ∈ sess'.books, 0 ≤ b.stock_count := by
  induction L generalizing sess with
  | nil =>
    rw [updItemsLoop, Except.ok.injEq] at h
    subst h
    exact hpos
  | cons item rest ih =>
    rw [updItemsLoop] at h
    split at h
    · exact absurd h (by simp)
    · rename_i sess1 hstep
      have hframe := (updStep_ok_frames hstep).1
      have hnodup1 : (sess1.books.map (fun b => b.book_id)).Nodup := by
        rw [books_ids_of_frame_eq hframe]
        exact hnodup
      exact ih h hnodup1 (updStep_ok_nonneg hstep hnodup hpos)

theorem updStep_ok_qty_pos {req eK : List String} {oid : String}
    {sess : UpdSession} {item : OrderItemInput} {sess' : UpdSession}
    (h : updStep req eK oid sess item = Except.ok sess')
    (hq : 0 < item.quantity)
    (hpos : ∀ r ∈ sess.items, 0 < r.quantity) :
    ∀ r ∈ sess'.items, 0 < r.quantity := by
  unfold updStep at h
  split at h
  · exact absurd h (by simp)
  · split at h
    · split at h
      · exact absurd h (by simp)
      · dsimp only at h
        split at h
        · exact absurd h (by simp)
        · rw [Except.ok.injEq] at h
          subst h
          intro r hr
          obtain ⟨r0, hr0, he⟩ := List.mem_map.mp hr
          by_cases hid : (r0.book_id == item.book_id) = true
          · rw [if_pos hid] at he
            subst he
            simpa using hq
          · rw [if_neg hid] at he
            subst he
            exact hpos r0 hr0
    · split at h
      · exact absurd h (by simp)
      · rw [Except.ok.injEq] at h
        subst h
        exact hpos

theorem validOrderSchema_qty_pos {L : List OrderItemInput}
    (h : validOrderSchema L = true) : ∀ i ∈ L, 0 < i.quantity := by
  intro i hi
  have hv := List.all_eq_true.mp h i hi
  unfold validOrderItem at hv
  rw [Bool.and_eq_true] at hv
  simpa using hv.2

theorem updItemsLoop_ok_qty_pos {req eK : List String} {oid : String}
    {L : List OrderItemInput} {sess sess' : UpdSession}
    (h : updItemsLoop req eK oid L sess = Except.ok sess')
    (hL : ∀ i ∈ L, 0 < i.quantity)
    (hpos : ∀ r ∈ sess.items, 0 < r.quantity) :
    ∀ r ∈ sess'.items, 0 < r.quantity := by
  induction L generalizing sess with
  | nil =>
    rw [updItemsLoop, Except.ok.injEq] at h
    subst h
    exact hpos
  | cons item rest ih =>
    rw [updItemsLoop] at h
    split at h
    · exact absurd h (by simp)
    · rename_i sess1 hstep
      exact ih h (fun i hi => hL i (List.mem_cons_of_mem _ hi))
        (updStep_ok_qty_pos hstep (hL item (List.mem_cons_self _ _)) hpos)

theorem removalLoop_items_sublist (req : List String)
    (orig : List OrderItemRow) (sess : UpdSession) :
    List.Sublist (removalLoop req req orig sess).items sess.items := by
  induction orig generalizing sess with
  | nil => exact List.Sublist.refl _
  | cons oi rest ih =>
    have hstep : removalLoop req req (oi :: rest) sess
        = removalLoop req req rest (removalStep req req sess oi) := rfl
    rw [hstep]
    refine (ih (removalStep req req sess oi)).trans ?_
    rw [removalStep_eq]
    split
    · exact List.Sublist.refl _
    · exact List.filter_sublist _

theorem items_bids_of_frame_eq {items' items : List OrderItemRow}
    (hframe : items'.map OrderItemRow.frame = items.map OrderItemRow.frame) :
    items'.map (fun r => r.book_id) = items.map (fun r => r.book_id) := by
  have h2 := congrArg
    (List.map (fun t : Nat × String × String × Option Int => t.2.2.1)) hframe
  rwa [List.map_map, List.map_map] at h2

theorem orderItemsOf_bids_nodup {s : Store} (oid : String)
    (hpw : s.order_items.Pairwise
      (fun r1 r2 => r1.order_id = r2.order_id → r1.book_id ≠ r2.book_id)) :
    ((orderItemsOf s oid).map (fun r => r.book_id)).Nodup := by
  rw [List.Nodup, List.pairwise_map]
  have hpw2 : (orderItemsOf s oid).Pairwise
      (fun r1 r2 => r1.order_id = r2.order_id → r1.book_id ≠ r2.book_id) :=
    List.Pairwise.sublist (List.filter_sublist _) hpw
  refine hpw2.imp_of_mem ?_
  intro a b ha hb hP
  exact hP ((orderItemsOf_order_id s oid a ha).trans
    (orderItemsOf_order_id s oid b hb).symm)


end AcaciaReads

namespace AcaciaReads

/-- Canonical shape of the committed store after a successful
`update_order`: validation passed, the diff loop succeeded with no pending
inserts (a pending insert would carry a NULL `unit_price` and make the commit
fail), and the new store keeps the orders table and autoincrement counter,
replaces the books with the session books, and replaces this order's item
rows with the post-removal session rows. -/
theorem updateOrder_ok_struct {s : Store} {uid oid : String}
    {L : List OrderItemInput} {s' : Store}
    (h : updateOrder s uid oid L = Except.ok s') :
    validOrderSchema L = true ∧
    ∃ sess, updItemsLoop (requestedIds L)
        ((orderItemsOf s oid).map (fun r => r.book_id)) oid L
        (initSession s oid) = Except.ok sess ∧
      sess.newItems = [] ∧
      s' = { books := sess.books, orders := s.orders,
             order_items :=
               s.order_items.filter (fun r => !(r.order_id == oid))
                 ++ (removalLoop (requestedIds L) (requestedIds L)
                      (orderItemsOf s oid) sess).items,
             next_item_id := s.next_item_id } := by
  obtain ⟨hval, hord, sess, hloop, hcommit⟩ := updateOrder_ok_inv h
  obtain ⟨hall, hs'⟩ := commitUpdate_ok_inv hcommit
  obtain ⟨hbR, hnR, hxR⟩ :=
    removalLoop_fields (requestedIds L) (orderItemsOf s oid) sess
  obtain ⟨hbL, hiL, ex, hnL, hpL, hxL⟩ := updItemsLoop_ok_frames hloop
  have hsessnew : sess.newItems = ex := by simpa using hnL
  have hexnil : ex = [] := by
    cases ex with
    | nil => rfl
    | cons r t =>
      exfalso
      rw [hnR, hsessnew] at hall
      have hr : r.unit_price = none := hpL r (by simp)
      simp [hr] at hall
  have hnewnil : sess.newItems = [] := by rw [hsessnew, hexnil]
  refine ⟨hval, sess, hloop, hnewnil, ?_⟩
  rw [hs']
  rw [Store.mk.injEq]
  refine ⟨hbR, rfl, ?_, ?_⟩
  · rw [hnR, hnewnil, List.append_nil]
  · rw [hxR, hxL, hexnil]
    simp [initSession]

/-- A successful `update_order` preserves the store's data-model invariants:
non-negative stock (the diff loop's guards bound every decrement and the
removal pass never touches stock), unique book keys, at most one item row per
(order, book), and positive quantities. -/
theorem updateOrder_ok_WF {s : Store} {uid oid : String}
    {L : List OrderItemInput} {s' : Store} (hwf : s.WF)
    (h : updateOrder s uid oid L = Except.ok s') : s'.WF := by
  obtain ⟨hpos, hnodup, hpw, hqty⟩ := hwf
  obtain ⟨hval, sess, hloop, hnew, hs'⟩ := updateOrder_ok_struct h
  obtain ⟨hbL, hiL, -⟩ := updItemsLoop_ok_frames hloop
  have hids : sess.books.map (fun b => b.book_id)
      = s.books.map (fun b => b.book_id) := books_ids_of_frame_eq hbL
  have hitems_oid : ∀ r ∈ sess.items, r.order_id = oid :=
    items_order_id_of_frame_eq hiL (orderItemsOf_order_id s oid)
  have hbidsR : (((removalLoop (requestedIds L) (requestedIds L)
      (orderItemsOf s oid) sess).items).map (fun r => r.book_id)).Nodup := by
    have h1 : (sess.items.map (fun r => r.book_id)).Nodup := by
      rw [items_bids_of_frame_eq hiL]
      exact orderItemsOf_bids_nodup oid hpw
    exact List.Nodup.sublist
      (List.Sublist.map _ (removalLoop_items_sublist _ _ _)) h1
  have hoidR : ∀ r ∈ (removalLoop (requestedIds L) (requestedIds L)
      (orderItemsOf s oid) sess).items, r.order_id = oid :=
    removalLoop_items_pred _ _ _ hitems_oid
  subst hs'
  refine ⟨?_, ?_, ?_, ?_⟩
  · exact updItemsLoop_ok_nonneg hloop hnodup hpos
  · rw [hids]
    exact hnodup
  · rw [List.pairwise_append]
    refine ⟨List.Pairwise.sublist (List.filter_sublist _) hpw, ?_, ?_⟩
    · have hpw2 : ((removalLoop (requestedIds L) (requestedIds L)
          (orderItemsOf s oid) sess).items).Pairwise
          (fun r1 r2 => r1.book_id ≠ r2.book_id) := by
        rw [List.Nodup, List.pairwise_map] at hbidsR
        exact hbidsR
      refine hpw2.imp_of_mem ?_
      intro a b _ _ hne _
      exact hne
    · intro a ha b hb
      intro heq
      exfalso
      have ha2 : (!(a.order_id == oid)) = true := (List.mem_filter.mp ha).2
      have : a.order_id ≠ oid := by simpa using ha2
      exact this (heq.trans (hoidR b hb))
  · intro r hr
    rcases List.mem_append.mp hr with hr | hr
    · exact hqty r (List.mem_of_mem_filter hr)
    · refine removalLoop_items_pred (p := fun r => 0 < r.quantity) _ _ _ ?_ r hr
      refine updItemsLoop_ok_qty_pos hloop (validOrderSchema_qty_pos hval) ?_
      intro r0 hr0
      exact hqty r0 (List.mem_of_mem_filter hr0)

theorem runUpdate_preserves_WF (s : Store) (uid oid : String)
    (L : List OrderItemInput) (hwf : s.WF) : (runUpdate s uid oid L).WF := by
  unfold runUpdate
  split
  · rename_i s' h
    exact updateOrder_ok_WF hwf h
  · exact hwf

theorem runCall_preserves_WF (s : Store) (c : Call) (hwf : s.WF) :
    (runCall s c).WF := by
  cases c with
  | place uid items =>
    show (runAdd s uid items).WF
    rw [runAdd_eq_self]
    exact hwf
  | update uid oid items => exact runUpdate_preserves_WF s uid oid items hwf

theorem runCalls_preserves_WF (cs : List Call) (s : Store) (hwf : s.WF) :
    (runCalls s cs).WF := by
  induction cs generalizing s with
  | nil => exact hwf
  | cons c rest ih =>
    show (runCalls (runCall s c) rest).WF
    exact ih _ (runCall_preserves_WF s c hwf)

/-- C3: starting from any well-formed store, no sequence of `place_order`
and `update_order` calls can commit a negative `stock_count` for any book;
in particular a single request whose items together over-ask one book never
commits a negative stock (a failing request commits nothing at all, and the
diff loop's guards bound every committed decrement). -/
theorem claim_C3_no_negative_committed_stock (s : Store) (hwf : s.WF)
    (cs : List Call) : ∀ b ∈ (runCalls s cs).books, 0 ≤ b.stock_count :=
  (runCalls_preserves_WF cs s hwf).1

theorem claim_C3_witness :
    demoStore.WF ∧
    (∀ b ∈ (runCalls demoStore
      [.place "u1" [⟨demoBid2, 2⟩, ⟨demoBid2, 2⟩],
       .update "u1" "O1" [⟨demoBid1, 6⟩],
       .update "u1" "O1" []]).books, 0 ≤ b.stock_count) :=
  ⟨by decide, claim_C3_no_negative_committed_stock demoStore (by decide) _⟩


end AcaciaReads

namespace AcaciaReads
def stockOf (books : List Book) (bid : String) : Option Int :=
  (lookupBook books bid).map (fun b => b.stock_count)
def qtyOf (items : List OrderItemRow) (bid : String) : Option Int :=
  (items.find? (fun r => r.book_id == bid)).map (fun r => r.quantity)
def optAdd : Option Int → Option Int → Option Int
  | some a, some b => some (a + b)
  | _, _ => none
def lastQty : List OrderItemInput → String → Option Int
  | [], _ => none
  | i :: rest, x =>
    match lastQty rest x with
    | some q => some q
    | none => if i.book_id == x then some i.quantity else none
theorem lookupBook_map_bidpres {f : Book → Book}
    (hf : ∀ b, (f b).book_id = b.book_id) (books : List Book) (x : String) :
    lookupBook (books.map f) x = (lookupBook books x).map f := by
  induction books with
  | nil => rfl
  | cons hd tl ih =>
    unfold lookupBook at ih ⊢
    rw [List.map_cons, List.find?_cons, List.find?_cons, hf hd]
    cases hh : (hd.book_id == x) with
    | false => exact ih
    | true => rfl
theorem find?_map_bidpres {f : OrderItemRow → OrderItemRow}
    (hf : ∀ r, (f r).book_id = r.book_id) (items : List OrderItemRow)
    (x : String) :
    (items.map f).find? (fun r => r.book_id == x)
      = (items.find? (fun r => r.book_id == x)).map f := by
  induction items with
  | nil => rfl
  | cons hd tl ih =>
    rw [List.map_cons, List.find?_cons, List.find?_cons, hf hd]
    cases hh : (hd.book_id == x) with
    | false => exact ih
    | true => rfl

end AcaciaReads

namespace AcaciaReads

theorem stockOf_decStock (books : List Book) (bid : String) (δ : Int)
    (x : String) :
    stockOf (decStock books bid δ) x
      = if x = bid then (stockOf books x).map (fun v => v - δ)
        else stockOf books x := by
  unfold stockOf decStock
  rw [lookupBook_map_bidpres (fun b => by split <;> rfl)]
  rcases Option.eq_none_or_eq_some (lookupBook books x) with ho | ⟨bk, ho⟩
  · rw [ho]
    split <;> rfl
  · rw [ho]
    have hbk : bk.book_id = x := (lookupBook_unique ho).2
    by_cases hx : x = bid
    · rw [if_pos hx]
      simp only [Option.map_some']
      rw [if_pos (show (bk.book_id == bid) = true by
        rw [hbk, hx]; exact beq_self_eq_true _)]
    · rw [if_neg hx]
      simp only [Option.map_some']
      rw [if_neg (show ¬(bk.book_id == bid) = true by simpa [hbk] using hx)]

theorem qtyOf_mapupd (items : List OrderItemRow) (bid : String) (q : Int)
    (x : String) :
    qtyOf (items.map (fun oi =>
        if oi.book_id == bid then { oi with quantity := q } else oi)) x
      = if x = bid then (qtyOf items x).map (fun _ => q)
        else qtyOf items x := by
  unfold qtyOf
  rw [find?_map_bidpres (fun r => by split <;> rfl)]
  rcases Option.eq_none_or_eq_some (items.find? (fun r => r.book_id == x))
    with ho | ⟨r0, ho⟩
  · rw [ho]
    split <;> rfl
  · rw [ho]
    have hr0 : r0.book_id = x := by simpa using List.find?_some ho
    by_cases hx : x = bid
    · rw [if_pos hx]
      simp only [Option.map_some']
      rw [if_pos (show (r0.book_id == bid) = true by
        rw [hr0, hx]; exact beq_self_eq_true _)]
    · rw [if_neg hx]
      simp only [Option.map_some']
      rw [if_neg (show ¬(r0.book_id == bid) = true by simpa [hr0] using hx)]

theorem qtyOf_filter_bidpred (qb : String → Bool) (items : List OrderItemRow)
    (x : String) :
    qtyOf (items.filter (fun r => qb r.book_id)) x
      = if qb x then qtyOf items x else none := by
  induction items with
  | nil =>
    unfold qtyOf
    split <;> rfl
  | cons hd tl ih =>
    unfold qtyOf at ih ⊢
    rw [List.filter_cons]
    by_cases hbid : (hd.book_id == x) = true
    · have hbx : hd.book_id = x := by simpa using hbid
      by_cases hq : qb x = true
      · rw [if_pos (by rw [hbx]; exact hq)]
        rw [List.find?_cons, List.find?_cons, hbid]
        rw [if_pos hq]
      · rw [if_neg (by rw [hbx]; simpa using hq)]
        rw [ih, if_neg hq, if_neg hq]
    · have hbid' : (hd.book_id == x) = false := by simpa using hbid
      by_cases hq : qb hd.book_id = true
      · rw [if_pos hq]
        rw [List.find?_cons, List.find?_cons, hbid']
        rw [ih]
      · rw [if_neg hq, ih]
        rw [List.find?_cons, hbid']


end AcaciaReads

namespace AcaciaReads

theorem lastQty_eq_none_of_not_mem {L : List OrderItemInput} {x : String}
    (h : x ∉ L.map (fun i => i.book_id)) : lastQty L x = none := by
  induction L with
  | nil => rfl
  | cons i rest ih =>
    rw [List.map_cons, List.mem_cons, not_or] at h
    unfold lastQty
    rw [ih h.2]
    rw [if_neg (by simpa using fun he => h.1 he.symm)]

theorem lastQty_isSome_of_mem {L : List OrderItemInput} {x : String}
    (h : x ∈ L.map (fun i => i.book_id)) : (lastQty L x).isSome = true := by
  induction L with
  | nil => cases h
  | cons i rest ih =>
    rw [List.map_cons, List.mem_cons] at h
    unfold lastQty
    rcases hrest : lastQty rest x with _ | q
    · rcases h with h | h
      · rw [if_pos (by simpa using h.symm)]
        rfl
      · have h2 := ih h
        rw [hrest] at h2
        cases h2
    · rfl

theorem lastQty_nodup_eq {L : List OrderItemInput}
    (hnd : (L.map (fun i => i.book_id)).Nodup) :
    ∀ i ∈ L, lastQty L i.book_id = some i.quantity := by
  induction L with
  | nil => intro i hi; cases hi
  | cons j rest ih =>
    rw [List.map_cons, List.nodup_cons] at hnd
    intro i hi
    rcases List.mem_cons.mp hi with rfl | hi'
    · unfold lastQty
      rw [lastQty_eq_none_of_not_mem hnd.1]
      rw [if_pos (by simp)]
    · unfold lastQty
      rw [ih hnd.2 i hi']


end AcaciaReads

namespace AcaciaReads

/-- A successful diff-loop iteration touches only its own book id: every
other book keeps its stock and every other item row its quantity. -/
theorem updStep_ok_off {req eK : List String} {oid : String}
    {sess : UpdSession} {item : OrderItemInput} {sess' : UpdSession}
    (h : updStep req eK oid sess item = Except.ok sess') :
    ∀ x, x ≠ item.book_id →
      stockOf sess'.books x = stockOf sess.books x ∧
      qtyOf sess'.items x = qtyOf sess.items x := by
  unfold updStep at h
  split at h
  · exact absurd h (by simp)
  · split at h
    · split at h
      · exact absurd h (by simp)
      · dsimp only at h
        split at h
        · exact absurd h (by simp)
        · rw [Except.ok.injEq] at h
          subst h
          intro x hx
          constructor
          · rw [stockOf_decStock, if_neg hx]
          · rw [qtyOf_mapupd, if_neg hx]
    · split at h
      · exact absurd h (by simp)
      · rw [Except.ok.injEq] at h
        subst h
        intro x hx
        exact ⟨by rw [stockOf_decStock, if_neg hx], rfl⟩

/-- Inversion of a diff-loop iteration that did not grow the pending-insert
list: it took the existing-item branch, with the book found, the live row
found, and the stock guard passed. -/
theorem updStep_ok_existing_inv {req eK : List String} {oid : String}
    {sess : UpdSession} {item : OrderItemInput} {sess' : UpdSession}
    (h : updStep req eK oid sess item = Except.ok sess')
    (hnonew : sess'.newItems = sess.newItems) :
    ∃ book ex,
      eK.contains item.book_id = true ∧
      lookupBook sess.books item.book_id = some book ∧
      sess.items.find? (fun r => r.book_id == item.book_id) = some ex ∧
      ¬(item.quantity - ex.quantity > 0 ∧
        book.stock_count < item.quantity - ex.quantity) ∧
      sess' = { sess with
                items := sess.items.map (fun oi =>
                  if oi.book_id == item.book_id then
                    { oi with quantity := item.quantity }
                  else oi),
                books := decStock sess.books item.book_id
                  (item.quantity - ex.quantity) } := by
  unfold updStep at h
  split at h
  · exact absurd h (by simp)
  · rename_i book hbg
    have hlk : lookupBook sess.books item.book_id = some book := by
      unfold booksMapGet at hbg
      split at hbg
      · exact hbg
      · exact absurd hbg (by simp)
    split at h
    · rename_i heK
      split at h
      · exact absurd h (by simp)
      · rename_i ex hfind
        dsimp only at h
        split at h
        · exact absurd h (by simp)
        · rename_i hguard
          rw [Except.ok.injEq] at h
          refine ⟨book, ex, heK, hlk, hfind, ?_, h.symm⟩
          intro hc
          exact hguard (by
            simp only [Bool.and_eq_true, decide_eq_true_eq]
            exact hc)
    · split at h
      · exact absurd h (by simp)
      · rw [Except.ok.injEq] at h
        exfalso
        rw [← h] at hnonew
        simp at hnonew

/-- Introduction rule for the existing-item branch of the diff loop. -/
theorem updStep_existing_intro (oid : String) {req eK : List String}
    {sess : UpdSession} {item : OrderItemInput} {book : Book}
    {ex : OrderItemRow}
    (hreq : req.contains item.book_id = true)
    (heK : eK.contains item.book_id = true)
    (hlk : lookupBook sess.books item.book_id = some book)
    (hfind : sess.items.find? (fun r => r.book_id == item.book_id) = some ex)
    (hguard : ¬(item.quantity - ex.quantity > 0 ∧
      book.stock_count < item.quantity - ex.quantity)) :
    updStep req eK oid sess item = Except.ok
      { sess with
        items := sess.items.map (fun oi =>
          if oi.book_id == item.book_id then
            { oi with quantity := item.quantity }
          else oi),
        books := decStock sess.books item.book_id
          (item.quantity - ex.quantity) } := by
  unfold updStep
  have hbg : booksMapGet sess.books req item.book_id = some book := by
    unfold booksMapGet
    rw [if_pos hreq]
    exact hlk
  rw [hbg]
  dsimp only
  rw [if_pos heK, hfind]
  dsimp only
  rw [if_neg (by
    simp only [Bool.and_eq_true, decide_eq_true_eq]
    exact fun hc => hguard ⟨hc.1, hc.2⟩)]

/-- The diff loop's existing-item branch conserves `stock + quantity` for
every book. -/
theorem updStep_existing_conserves {sess : UpdSession}
    {item : OrderItemInput} {book : Book} {ex : OrderItemRow}
    (hlk : lookupBook sess.books item.book_id = some book)
    (hfind : sess.items.find? (fun r => r.book_id == item.book_id) = some ex) :
    ∀ x,
      optAdd
        (stockOf (decStock sess.books item.book_id
          (item.quantity - ex.quantity)) x)
        (qtyOf (sess.items.map (fun oi =>
          if oi.book_id == item.book_id then
            { oi with quantity := item.quantity }
          else oi)) x)
      = optAdd (stockOf sess.books x) (qtyOf sess.items x) := by
  intro x
  by_cases hx : x = item.book_id
  · subst hx
    rw [stockOf_decStock, if_pos rfl, qtyOf_mapupd, if_pos rfl]
    have hst : stockOf sess.books item.book_id = some book.stock_count := by
      unfold stockOf
      rw [hlk]
      rfl
    have hq : qtyOf sess.items item.book_id = some ex.quantity := by
      unfold qtyOf
      rw [hfind]
      rfl
    rw [hst, hq]
    simp only [Option.map_some']
    simp only [optAdd]
    rw [Option.some.injEq]
    ring
  · rw [stockOf_decStock, if_neg hx, qtyOf_mapupd, if_neg hx]


end AcaciaReads

namespace AcaciaReads

theorem optAdd_eq_some {a b : Option Int} {c : Int} (h : optAdd a b = some c) :
    ∃ u v, a = some u ∧ b = some v ∧ c = u + v := by
  rcases a with _ | u
  · cases h
  · rcases b with _ | v
    · cases h
    · exact ⟨u, v, rfl, rfl, by simpa [optAdd] using h.symm⟩

/-- Split one iteration off a diff-loop run that did not grow the
pending-insert list: the head step did not grow it and neither did the
tail run. -/
theorem updItemsLoop_cons_nonew {req eK : List String} {oid : String}
    {item : OrderItemInput} {rest : List OrderItemInput}
    {sess sess' : UpdSession}
    (h : updItemsLoop req eK oid (item :: rest) sess = Except.ok sess')
    (hnonew : sess'.newItems = sess.newItems) :
    ∃ sess1, updStep req eK oid sess item = Except.ok sess1 ∧
      sess1.newItems = sess.newItems ∧
      updItemsLoop req eK oid rest sess1 = Except.ok sess' ∧
      sess'.newItems = sess1.newItems := by
  rw [updItemsLoop] at h
  split at h
  · exact absurd h (by simp)
  · rename_i sess1 hstep
    obtain ⟨-, -, ex1, hn1, -, -⟩ := updStep_ok_frames hstep
    obtain ⟨-, -, ex2, hn2, -, -⟩ := updItemsLoop_ok_frames h
    have hcat : sess.newItems ++ (ex1 ++ ex2) = sess.newItems ++ [] := by
      rw [← List.append_assoc, ← hn1, ← hn2, hnonew, List.append_nil]
    have hnil : ex1 ++ ex2 = [] := List.append_cancel_left hcat
    rw [List.append_eq_nil] at hnil
    refine ⟨sess1, hstep, ?_, h, ?_⟩
    · rw [hn1, hnil.1, List.append_nil]
    · rw [hn2, hnil.2, List.append_nil]

/-- A no-new-items diff-loop run conserves `stock + quantity` per book. -/
theorem updItemsLoop_nonew_conserves {req eK : List String} {oid : String}
    {L : List OrderItemInput} {sess sess' : UpdSession}
    (h : updItemsLoop req eK oid L sess = Except.ok sess')
    (hnonew : sess'.newItems = sess.newItems) :
    ∀ x, optAdd (stockOf sess'.books x) (qtyOf sess'.items x)
       = optAdd (stockOf sess.books x) (qtyOf sess.items x) := by
  induction L generalizing sess with
  | nil =>
    rw [updItemsLoop, Except.ok.injEq] at h
    subst h
    intro x
    rfl
  | cons item rest ih =>
    obtain ⟨sess1, hstep, hn1, hrest, hn2⟩ := updItemsLoop_cons_nonew h hnonew
    obtain ⟨book, ex, heK, hlk, hfind, hguard, hshape⟩ :=
      updStep_ok_existing_inv hstep hn1
    intro x
    rw [ih hrest hn2 x, hshape]
    exact updStep_existing_conserves hlk hfind x

/-- After a no-new-items diff-loop run, the quantity of each item row is the
one of the LAST occurrence of its book id in the list (or unchanged if the
book id does not occur). -/
theorem updItemsLoop_nonew_qty {req eK : List String} {oid : String}
    {L : List OrderItemInput} {sess sess' : UpdSession}
    (h : updItemsLoop req eK oid L sess = Except.ok sess')
    (hnonew : sess'.newItems = sess.newItems) :
    ∀ x, qtyOf sess'.items x
      = match lastQty L x with
        | some q => some q
        | none => qtyOf sess.items x := by
  induction L generalizing sess with
  | nil =>
    rw [updItemsLoop, Except.ok.injEq] at h
    subst h
    intro x
    rfl
  | cons item rest ih =>
    obtain ⟨sess1, hstep, hn1, hrest, hn2⟩ := updItemsLoop_cons_nonew h hnonew
    obtain ⟨book, ex, heK, hlk, hfind, hguard, hshape⟩ :=
      updStep_ok_existing_inv hstep hn1
    intro x
    have hih := ih hrest hn2 x
    unfold lastQty
    rcases hrq : lastQty rest x with _ | q'
    · rw [hrq] at hih
      rw [hih, hshape]
      dsimp only
      rw [qtyOf_mapupd]
      by_cases hx : x = item.book_id
      · rw [if_pos hx, if_pos (by rw [hx]; exact beq_self_eq_true _)]
        have hq : qtyOf sess.items item.book_id = some ex.quantity := by
          unfold qtyOf
          rw [hfind]
          rfl
        rw [hx, hq]
        rfl
      · rw [if_neg hx,
          if_neg (by simpa using fun he => hx ((by simpa using he : item.book_id = x)).symm)]
    · rw [hrq] at hih
      rw [hih]

/-- A successful diff-loop run leaves books and item rows of ids outside the
list untouched. -/
theorem updItemsLoop_ok_off {req eK : List String} {oid : String}
    {L : List OrderItemInput} {sess sess' : UpdSession}
    (h : updItemsLoop req eK oid L sess = Except.ok sess') :
    ∀ x, x ∉ L.map (fun i => i.book_id) →
      stockOf sess'.books x = stockOf sess.books x ∧
      qtyOf sess'.items x = qtyOf sess.items x := by
  induction L generalizing sess with
  | nil =>
    rw [updItemsLoop, Except.ok.injEq] at h
    subst h
    exact fun x _ => ⟨rfl, rfl⟩
  | cons item rest ih =>
    rw [updItemsLoop] at h
    split at h
    · exact absurd h (by simp)
    · rename_i sess1 hstep
      intro x hx
      rw [List.map_cons, List.mem_cons, not_or] at hx
      obtain ⟨h1, h2⟩ := updStep_ok_off hstep x hx.1
      obtain ⟨h3, h4⟩ := ih h x hx.2
      exact ⟨h3.trans h1, h4.trans h2⟩

/-- Dominance: a no-new-items diff-loop run that succeeds from a store with
unique book keys and non-negative stock can only contain occurrences whose
requested quantity is at most the conserved `stock + quantity` of their
book. -/
theorem updItemsLoop_nonew_dom {req eK : List String} {oid : String}
    {L : List OrderItemInput} {sess sess' : UpdSession}
    (h : updItemsLoop req eK oid L sess = Except.ok sess')
    (hnonew : sess'.newItems = sess.newItems)
    (hnodup : (sess.books.map (fun b => b.book_id)).Nodup)
    (hpos : ∀ b ∈ sess.books, 0 ≤ b.stock_count) :
    ∀ item ∈ L, ∃ c,
      optAdd (stockOf sess.books item.book_id) (qtyOf sess.items item.book_id)
        = some c ∧ item.quantity ≤ c := by
  induction L generalizing sess with
  | nil => intro item hitem; cases hitem
  | cons j rest ih =>
    obtain ⟨sess1, hstep, hn1, hrest, hn2⟩ := updItemsLoop_cons_nonew h hnonew
    obtain ⟨book, ex, heK, hlk, hfind, hguard, hshape⟩ :=
      updStep_ok_existing_inv hstep hn1
    intro item hitem
    rcases List.mem_cons.mp hitem with rfl | hitem'
    · refine ⟨book.stock_count + ex.quantity, ?_, ?_⟩
      · have hst : stockOf sess.books item.book_id = some book.stock_count := by
          unfold stockOf
          rw [hlk]
          rfl
        have hq : qtyOf sess.items item.book_id = some ex.quantity := by
          unfold qtyOf
          rw [hfind]
          rfl
        rw [hst, hq]
        rfl
      · have hb0 : 0 ≤ book.stock_count :=
          hpos book (lookupBook_unique hlk).1
        by_cases hd : item.quantity - ex.quantity > 0
        · have := fun h2 => hguard ⟨hd, h2⟩
          omega
        · omega
    · have hnodup1 : (sess1.books.map (fun b => b.book_id)).Nodup := by
        rw [books_ids_of_frame_eq (updStep_ok_frames hstep).1]
        exact hnodup
      have hpos1 := updStep_ok_nonneg hstep hnodup hpos
      obtain ⟨c, hc, hqc⟩ := ih hrest hn2 hnodup1 hpos1 item hitem'
      refine ⟨c, ?_, hqc⟩
      rw [← hc, hshape]
      exact (updStep_existing_conserves hlk hfind item.book_id).symm

/-- Replay: from any session state whose conserved per-book totals dominate
every requested quantity of the list, the diff loop succeeds through the
existing-item branch alone. -/
theorem updItemsLoop_replay (oid : String) {req eK : List String}
    {L : List OrderItemInput} {v : UpdSession}
    (hdom : ∀ item ∈ L, ∃ c,
      optAdd (stockOf v.books item.book_id) (qtyOf v.items item.book_id)
        = some c ∧ item.quantity ≤ c)
    (hreq : ∀ item ∈ L, req.contains item.book_id = true)
    (heK : ∀ item ∈ L, eK.contains item.book_id = true) :
    ∃ w, updItemsLoop req eK oid L v = Except.ok w ∧
      w.newItems = v.newItems := by
  induction L generalizing v with
  | nil => exact ⟨v, by rw [updItemsLoop], rfl⟩
  | cons j rest ih =>
    obtain ⟨c, hc, hqc⟩ := hdom j (List.mem_cons_self _ _)
    obtain ⟨st, p, hst, hp, hcval⟩ := optAdd_eq_some hc
    obtain ⟨book, hlk, hbst⟩ : ∃ book,
        lookupBook v.books j.book_id = some book ∧ book.stock_count = st := by
      unfold stockOf at hst
      rcases Option.map_eq_some'.mp hst with ⟨book, hb1, hb2⟩
      exact ⟨book, hb1, hb2⟩
    obtain ⟨ex, hfind, hexq⟩ : ∃ ex,
        v.items.find? (fun r => r.book_id == j.book_id) = some ex ∧
        ex.quantity = p := by
      unfold qtyOf at hp
      rcases Option.map_eq_some'.mp hp with ⟨ex, he1, he2⟩
      exact ⟨ex, he1, he2⟩
    have hguard : ¬(j.quantity - ex.quantity > 0 ∧
        book.stock_count < j.quantity - ex.quantity) := by
      intro hcon
      omega
    have hstep := updStep_existing_intro oid (hreq j (List.mem_cons_self _ _))
      (heK j (List.mem_cons_self _ _)) hlk hfind hguard
    have hcons := updStep_existing_conserves hlk hfind
    obtain ⟨w, hw, hwn⟩ := ih (v := { v with
        items := v.items.map (fun oi =>
          if oi.book_id == j.book_id then { oi with quantity := j.quantity }
          else oi),
        books := decStock v.books j.book_id (j.quantity - ex.quantity) })
      (fun item hitem => by
        obtain ⟨c', hc', hqc'⟩ := hdom item (List.mem_cons_of_mem _ hitem)
        exact ⟨c', by rw [← hc']; exact hcons item.book_id, hqc'⟩)
      (fun item hitem => hreq item (List.mem_cons_of_mem _ hitem))
      (fun item hitem => heK item (List.mem_cons_of_mem _ hitem))
    refine ⟨w, ?_, hwn⟩
    rw [updItemsLoop, hstep]
    exact hw


end AcaciaReads

namespace AcaciaReads

/-- A book table is determined by its frames (all fields but stock) plus the
per-id stock observer, when primary keys are unique. -/
theorem books_eq_of_frame_stock {books1 books2 : List Book}
    (hframe : books1.map Book.frame = books2.map Book.frame)
    (hstock : ∀ x, stockOf books1 x = stockOf books2 x)
    (hnodup : (books2.map (fun b => b.book_id)).Nodup) :
    books1 = books2 := by
  induction books2 generalizing books1 with
  | nil =>
    rw [List.map_nil, List.map_eq_nil_iff] at hframe
    exact hframe
  | cons b2 t2 ih =>
    rcases books1 with _ | ⟨b1, t1⟩
    · rw [List.map_nil, List.map_cons] at hframe
      cases hframe
    · rw [List.map_cons, List.map_cons, List.cons.injEq] at hframe
      obtain ⟨hf1, hft⟩ := hframe
      rw [List.map_cons, List.nodup_cons] at hnodup
      have hid : b1.book_id = b2.book_id := congrArg (fun t => t.1) hf1
      have hsval : b1.stock_count = b2.stock_count := by
        have hs := hstock b2.book_id
        unfold stockOf lookupBook at hs
        rw [List.find?_cons, List.find?_cons,
          (by rw [hid]; exact beq_self_eq_true _ : (b1.book_id == b2.book_id) = true),
          beq_self_eq_true] at hs
        simpa using hs
      have hb : b1 = b2 := by
        cases b1
        cases b2
        simp only [Book.frame, Prod.mk.injEq] at hf1
        simp_all
      subst hb
      have hids : t1.map (fun b => b.book_id) = t2.map (fun b => b.book_id) :=
        books_ids_of_frame_eq hft
      have hstock' : ∀ x, stockOf t1 x = stockOf t2 x := by
        intro x
        by_cases hx : (b1.book_id == x) = true
        · have hx' : b1.book_id = x := by simpa using hx
          have h2 : lookupBook t2 x = none := by
            apply List.find?_eq_none.mpr
            intro r hr
            have : r.book_id ∈ t2.map (fun b => b.book_id) :=
              List.mem_map_of_mem _ hr
            simp only [Bool.not_eq_true, beq_eq_false_iff_ne, ne_eq]
            intro he
            exact hnodup.1 (by rw [hx', ← he]; exact this)
          have h1 : lookupBook t1 x = none := by
            apply List.find?_eq_none.mpr
            intro r hr
            have : r.book_id ∈ t2.map (fun b => b.book_id) := by
              rw [← hids]
              exact List.mem_map_of_mem _ hr
            simp only [Bool.not_eq_true, beq_eq_false_iff_ne, ne_eq]
            intro he
            exact hnodup.1 (by rw [hx', ← he]; exact this)
          unfold stockOf
          rw [h1, h2]
        · have hs := hstock x
          unfold stockOf lookupBook at hs
          rw [List.find?_cons, List.find?_cons,
            (by simpa using hx : (b1.book_id == x) = false)] at hs
          exact hs
      rw [ih hft hstock' hnodup.2]

/-- An item-row table is determined by its frames (all fields but quantity)
plus the per-book-id quantity observer, when book ids are unique. -/
theorem items_eq_of_frame_qty {items1 items2 : List OrderItemRow}
    (hframe : items1.map OrderItemRow.frame = items2.map OrderItemRow.frame)
    (hqty : ∀ x, qtyOf items1 x = qtyOf items2 x)
    (hnodup : (items2.map (fun r => r.book_id)).Nodup) :
    items1 = items2 := by
  induction items2 generalizing items1 with
  | nil =>
    rw [List.map_nil, List.map_eq_nil_iff] at hframe
    exact hframe
  | cons b2 t2 ih =>
    rcases items1 with _ | ⟨b1, t1⟩
    · rw [List.map_nil, List.map_cons] at hframe
      cases hframe
    · rw [List.map_cons, List.map_cons, List.cons.injEq] at hframe
      obtain ⟨hf1, hft⟩ := hframe
      rw [List.map_cons, List.nodup_cons] at hnodup
      have hid : b1.book_id = b2.book_id :=
        congrArg (fun t => t.2.2.1) hf1
      have hsval : b1.quantity = b2.quantity := by
        have hs := hqty b2.book_id
        unfold qtyOf at hs
        rw [List.find?_cons, List.find?_cons,
          (by rw [hid]; exact beq_self_eq_true _ : (b1.book_id == b2.book_id) = true),
          beq_self_eq_true] at hs
        simpa using hs
      have hb : b1 = b2 := by
        cases b1
        cases b2
        simp only [OrderItemRow.frame, Prod.mk.injEq] at hf1
        simp_all
      subst hb
      have hids : t1.map (fun r => r.book_id) = t2.map (fun r => r.book_id) :=
        items_bids_of_frame_eq hft
      have hqty' : ∀ x, qtyOf t1 x = qtyOf t2 x := by
        intro x
        by_cases hx : (b1.book_id == x) = true
        · have hx' : b1.book_id = x := by simpa using hx
          have h2 : t2.find? (fun r => r.book_id == x) = none := by
            apply List.find?_eq_none.mpr
            intro r hr
            have : r.book_id ∈ t2.map (fun r => r.book_id) :=
              List.mem_map_of_mem _ hr
            simp only [Bool.not_eq_true, beq_eq_false_iff_ne, ne_eq]
            intro he
            exact hnodup.1 (by rw [hx', ← he]; exact this)
          have h1 : t1.find? (fun r => r.book_id == x) = none := by
            apply List.find?_eq_none.mpr
            intro r hr
            have : r.book_id ∈ t2.map (fun r => r.book_id) := by
              rw [← hids]
              exact List.mem_map_of_mem _ hr
            simp only [Bool.not_eq_true, beq_eq_false_iff_ne, ne_eq]
            intro he
            exact hnodup.1 (by rw [hx', ← he]; exact this)
          unfold qtyOf
          rw [h1, h2]
        · have hs := hqty x
          unfold qtyOf at hs
          rw [List.find?_cons, List.find?_cons,
            (by simpa using hx : (b1.book_id == x) = false)] at hs
          exact hs
      rw [ih hft hqty' hnodup.2]

/-- What the removal pass deletes: exactly the rows whose book id belongs to
some pre-call item and is not in the requested id list. -/
theorem removalLoop_items_any (req : List String) (orig : List OrderItemRow)
    (sess : UpdSession) :
    (removalLoop req req orig sess).items
      = sess.items.filter (fun r => req.contains r.book_id
          || !(orig.any (fun oi => oi.book_id == r.book_id))) := by
  induction orig generalizing sess with
  | nil =>
    show sess.items = _
    symm
    apply List.filter_eq_self.mpr
    intro r _
    simp
  | cons oi rest ih =>
    have hstep : removalLoop req req (oi :: rest) sess
        = removalLoop req req rest (removalStep req req sess oi) := rfl
    rw [hstep, ih, removalStep_eq]
    by_cases hc : req.contains oi.book_id = true
    · rw [if_pos hc]
      apply List.filter_congr
      intro r _
      by_cases hrb : (r.book_id == oi.book_id) = true
      · have he : r.book_id = oi.book_id := by simpa using hrb
        rw [List.any_cons]
        rw [(by rw [he]; exact beq_self_eq_true _ :
          (oi.book_id == r.book_id) = true)]
        rw [he, hc]
        simp
      · rw [List.any_cons,
          (by simpa using fun hee => (by simpa using hrb : ¬_) hee.symm :
            (oi.book_id == r.book_id) = false)]
        simp
    · rw [if_neg hc]
      dsimp only
      rw [List.filter_filter]
      apply List.filter_congr
      intro r _
      by_cases hrb : (r.book_id == oi.book_id) = true
      · have he : r.book_id = oi.book_id := by simpa using hrb
        rw [List.any_cons,
          (by rw [he]; exact beq_self_eq_true _ :
            (oi.book_id == r.book_id) = true)]
        rw [hrb]
        rw [he]
        rw [(by simpa using hc : req.contains oi.book_id = false)]
        simp
      · rw [List.any_cons,
          (by simpa using fun hee => (by simpa using hrb : ¬_) hee.symm :
            (oi.book_id == r.book_id) = false),
          (by simpa using hrb : (r.book_id == oi.book_id) = false)]
        simp


end AcaciaReads

namespace AcaciaReads

theorem mem_bids_of_qtyOf_some {items : List OrderItemRow} {x : String}
    {p : Int} (h : qtyOf items x = some p) :
    x ∈ items.map (fun r => r.book_id) := by
  unfold qtyOf at h
  rcases Option.map_eq_some'.mp h with ⟨r, hr, -⟩
  have hmem := List.mem_of_find?_eq_some hr
  have hx : r.book_id = x := by simpa using List.find?_some hr
  rw [← hx]
  exact List.mem_map_of_mem _ hmem

/-- When every current item row's book id is covered by some pre-call item,
the removal pass keeps exactly the rows whose book id was requested. -/
theorem removalLoop_items_covered {req : List String}
    {orig : List OrderItemRow} {sess : UpdSession}
    (hcov : ∀ r ∈ sess.items, ∃ oi ∈ orig, oi.book_id = r.book_id) :
    (removalLoop req req orig sess).items
      = sess.items.filter (fun r => req.contains r.book_id) := by
  rw [removalLoop_items_any]
  apply List.filter_congr
  intro r hr
  obtain ⟨oi, hoi, he⟩ := hcov r hr
  have hany : orig.any (fun x => x.book_id == r.book_id) = true :=
    List.any_eq_true.mpr ⟨oi, hoi, by simpa using he⟩
  rw [hany]
  simp

/-- The per-iteration stock adjustment the diff loop computes:
`stock_diff = item.quantity - existing_item.quantity` on the existing-item
branch (`UpdateOrder.mutate`, the `stock_diff` local), the full reserved
`item.quantity` for a new item. -/
def stepDelta (existingKeys : List String) (sess : UpdSession)
    (item : OrderItemInput) : Int :=
  if existingKeys.contains item.book_id then
    match sess.items.find? (fun oi => oi.book_id == item.book_id) with
    | some existing_item => item.quantity - existing_item.quantity
    | none => 0
  else item.quantity

/-- The per-item deltas computed along a diff-loop run (the delta of the
iteration that raises is the last one listed). -/
def updDeltas (requested existingKeys : List String) (oid : String) :
    List OrderItemInput → UpdSession → List Int
  | [], _ => []
  | item :: rest, sess =>
    match updStep requested existingKeys oid sess item with
    | .error _ => [stepDelta existingKeys sess item]
    | .ok sess' =>
      stepDelta existingKeys sess item ::
        updDeltas requested existingKeys oid rest sess'

/-- The deltas one `update_order` call computes against a committed store. -/
def updateDeltas (s : Store) (oid : String) (L : List OrderItemInput) :
    List Int :=
  updDeltas (requestedIds L) ((orderItemsOf s oid).map (fun r => r.book_id))
    oid L (initSession s oid)

/-- On a list without repeated book ids, a successful no-new-items diff-loop
run whose starting quantities already match the requested ones computes only
zero deltas. -/
theorem updDeltas_zero {req eK : List String} {oid : String}
    {L : List OrderItemInput} {v w : UpdSession}
    (h : updItemsLoop req eK oid L v = Except.ok w)
    (hnonew : w.newItems = v.newItems)
    (hnd : (L.map (fun i => i.book_id)).Nodup)
    (hq : ∀ i ∈ L, qtyOf v.items i.book_id = some i.quantity) :
    updDeltas req eK oid L v = L.map (fun _ => 0) := by
  induction L generalizing v with
  | nil => rfl
  | cons j rest ih =>
    obtain ⟨sess1, hstep, hn1, hrest, hn2⟩ := updItemsLoop_cons_nonew h hnonew
    obtain ⟨book, ex, heK, hlk, hfind, hguard, hshape⟩ :=
      updStep_ok_existing_inv hstep hn1
    rw [List.map_cons, List.nodup_cons] at hnd
    unfold updDeltas
    rw [hstep]
    have hd0 : stepDelta eK v j = 0 := by
      unfold stepDelta
      rw [if_pos heK, hfind]
      have hj := hq j (List.mem_cons_self _ _)
      unfold qtyOf at hj
      rw [hfind] at hj
      have hexq : ex.quantity = j.quantity := by simpa using hj
      dsimp only
      omega
    rw [hd0, List.map_cons]
    dsimp only
    congr 1
    apply ih hrest hn2 hnd.2
    intro i hi
    have hne : i.book_id ≠ j.book_id := by
      intro he
      exact hnd.1 (he ▸ List.mem_map_of_mem _ hi)
    rw [(updStep_ok_off hstep i.book_id hne).2]
    exact hq i (List.mem_cons_of_mem _ hi)


end AcaciaReads

namespace AcaciaReads

/-- The committed store a successful `update_order` produces, in terms of
the diff-loop result (see `updateOrder_ok_struct`). -/
def postUpdateStore (s : Store) (oid : String) (L : List OrderItemInput)
    (sess : UpdSession) : Store :=
  { books := sess.books, orders := s.orders,
    order_items := s.order_items.filter (fun r => !(r.order_id == oid))
      ++ (removalLoop (requestedIds L) (requestedIds L)
          (orderItemsOf s oid) sess).items,
    next_item_id := s.next_item_id }

/-- C7 (amended): whenever one `update_order` call succeeds, repeating the
identical call succeeds and leaves the stock counts, the item rows, and the
whole committed store exactly as the first call left them, with nothing
removed; when the item list repeats no book id, every per-item delta of the
second call is zero.  (With a repeated book id the second call's individual
deltas can be non-zero — see the counterexample — but the final state is
still identical.) -/
theorem claim_C7_full_replace_idempotent (s : Store) (uid oid : String)
    (L : List OrderItemInput) (s1 : Store) (hwf : s.WF)
    (h1 : updateOrder s uid oid L = Except.ok s1) :
    updateOrder s1 uid oid L = Except.ok s1 ∧
    ((L.map (fun i => i.book_id)).Nodup →
      updateDeltas s1 oid L = L.map (fun _ => 0)) := by
  have hwf1 : s1.WF := updateOrder_ok_WF hwf h1
  obtain ⟨hval, ⟨order, hfind, hown⟩, -⟩ := updateOrder_ok_inv h1
  obtain ⟨-, sess, hloop, hnew0, hs1⟩ := updateOrder_ok_struct h1
  have hnonew1 : sess.newItems = (initSession s oid).newItems := by
    rw [hnew0]
    rfl
  have hcons1 := updItemsLoop_nonew_conserves hloop hnonew1
  have hqty1 := updItemsLoop_nonew_qty hloop hnonew1
  have hdom1 := updItemsLoop_nonew_dom hloop hnonew1 hwf.2.1 hwf.1
  have hframes1 := updItemsLoop_ok_frames hloop
  have hbids_sess : sess.items.map (fun r => r.book_id)
      = (orderItemsOf s oid).map (fun r => r.book_id) :=
    items_bids_of_frame_eq hframes1.2.1
  have hcov1 : ∀ r ∈ sess.items, ∃ oi ∈ orderItemsOf s oid,
      oi.book_id = r.book_id := by
    intro r hr
    have hmem : r.book_id ∈ (orderItemsOf s oid).map (fun r => r.book_id) := by
      rw [← hbids_sess]
      exact List.mem_map_of_mem _ hr
    obtain ⟨oi, hoi, he⟩ := List.mem_map.mp hmem
    exact ⟨oi, hoi, he⟩
  have hR : (removalLoop (requestedIds L) (requestedIds L)
      (orderItemsOf s oid) sess).items
      = sess.items.filter (fun r => (requestedIds L).contains r.book_id) :=
    removalLoop_items_covered hcov1
  have hoidR : ∀ r ∈ (removalLoop (requestedIds L) (requestedIds L)
      (orderItemsOf s oid) sess).items, r.order_id = oid :=
    removalLoop_items_pred _ _ _
      (items_order_id_of_frame_eq hframes1.2.1 (orderItemsOf_order_id s oid))
  have hs1' : s1 = postUpdateStore s oid L sess := hs1
  clear hs1
  subst hs1'
  have hOI : orderItemsOf (postUpdateStore s oid L sess) oid
      = (removalLoop (requestedIds L) (requestedIds L)
          (orderItemsOf s oid) sess).items := by
    have hA : (s.order_items.filter (fun r => !(r.order_id == oid))).filter
        (fun r => r.order_id == oid) = [] := by
      rw [List.filter_filter]
      apply List.filter_eq_nil_iff.mpr
      intro r _
      simp
    have hRf : ((removalLoop (requestedIds L) (requestedIds L)
        (orderItemsOf s oid) sess).items).filter
        (fun r => r.order_id == oid)
        = (removalLoop (requestedIds L) (requestedIds L)
            (orderItemsOf s oid) sess).items := by
      apply List.filter_eq_self.mpr
      intro r hr
      rw [hoidR r hr]
      exact beq_self_eq_true _
    show (s.order_items.filter (fun r => !(r.order_id == oid))
        ++ (removalLoop (requestedIds L) (requestedIds L)
            (orderItemsOf s oid) sess).items).filter
        (fun r => r.order_id == oid)
      = (removalLoop (requestedIds L) (requestedIds L)
          (orderItemsOf s oid) sess).items
    rw [List.filter_append, hA, hRf, List.nil_append]
  have hreq2 : ∀ item ∈ L, (requestedIds L).contains item.book_id = true := by
    intro item hitem
    have hmem : item.book_id ∈ L.map (fun i => i.book_id) :=
      List.mem_map_of_mem _ hitem
    simpa [requestedIds] using hmem
  have hqR : ∀ x, (requestedIds L).contains x = true →
      qtyOf (removalLoop (requestedIds L) (requestedIds L)
        (orderItemsOf s oid) sess).items x = qtyOf sess.items x := by
    intro x hx
    rw [hR, qtyOf_filter_bidpred (fun y => (requestedIds L).contains y),
      if_pos hx]
  have hdom2 : ∀ item ∈ L, ∃ c,
      optAdd
        (stockOf (initSession (postUpdateStore s oid L sess) oid).books
          item.book_id)
        (qtyOf (initSession (postUpdateStore s oid L sess) oid).items
          item.book_id)
        = some c ∧ item.quantity ≤ c := by
    intro item hitem
    obtain ⟨c, hc, hqc⟩ := hdom1 item hitem
    refine ⟨c, ?_, hqc⟩
    show optAdd (stockOf sess.books item.book_id)
      (qtyOf (orderItemsOf (postUpdateStore s oid L sess) oid) item.book_id)
      = some c
    rw [hOI, hqR item.book_id (hreq2 item hitem), hcons1 item.book_id]
    exact hc
  have heK2 : ∀ item ∈ L,
      ((orderItemsOf (postUpdateStore s oid L sess) oid).map
        (fun r => r.book_id)).contains item.book_id = true := by
    intro item hitem
    obtain ⟨c, hc, -⟩ := hdom2 item hitem
    obtain ⟨u, p, -, hp, -⟩ := optAdd_eq_some hc
    have hmem := mem_bids_of_qtyOf_some hp
    simpa using hmem
  obtain ⟨w, hw, hwn⟩ := updItemsLoop_replay oid hdom2 hreq2 heK2
  have hcons2 := updItemsLoop_nonew_conserves hw hwn
  have hqty2 := updItemsLoop_nonew_qty hw hwn
  have hframes2 := updItemsLoop_ok_frames hw
  have hoff2 := updItemsLoop_ok_off hw
  have hv0qty : ∀ x q', lastQty L x = some q' →
      qtyOf (orderItemsOf (postUpdateStore s oid L sess) oid) x = some q' := by
    intro x q' hlq
    have hxmem : x ∈ L.map (fun i => i.book_id) := by
      by_contra hxm
      rw [lastQty_eq_none_of_not_mem hxm] at hlq
      cases hlq
    have hcx : (requestedIds L).contains x = true := by
      simpa [requestedIds] using hxmem
    rw [hOI, hqR x hcx, hqty1 x, hlq]
  have hqty_eq : ∀ x, qtyOf w.items x
      = qtyOf (orderItemsOf (postUpdateStore s oid L sess) oid) x := by
    intro x
    rw [hqty2 x]
    rcases hlq : lastQty L x with _ | q'
    · rfl
    · exact (hv0qty x q' hlq).symm
  have hstock_eq : ∀ x, stockOf w.books x = stockOf sess.books x := by
    intro x
    by_cases hxmem : x ∈ L.map (fun i => i.book_id)
    · obtain ⟨i, hi, hib⟩ := List.mem_map.mp hxmem
      subst hib
      obtain ⟨c, hc, -⟩ := hdom2 i hi
      obtain ⟨u, p, hu, hp, hcval⟩ := optAdd_eq_some hc
      have h2 := hcons2 i.book_id
      rw [hc] at h2
      rw [hqty_eq i.book_id] at h2
      have hp' : qtyOf (orderItemsOf (postUpdateStore s oid L sess) oid)
          i.book_id = some p := hp
      rw [hp'] at h2
      rcases Option.eq_none_or_eq_some (stockOf w.books i.book_id)
        with hw0 | ⟨u', hw0⟩
      · rw [hw0] at h2
        simp [optAdd] at h2
      · rw [hw0] at h2
        have hval2 : u' + p = c := by simpa [optAdd] using h2
        have hu' : u' = u := by omega
        rw [hw0, hu']
        exact (hu : stockOf (initSession (postUpdateStore s oid L sess)
          oid).books i.book_id = some u).symm
    · exact (hoff2 x hxmem).1
  have hnodup_sess : (sess.books.map (fun b => b.book_id)).Nodup := by
    rw [books_ids_of_frame_eq hframes1.1]
    exact hwf.2.1
  have hbooks_eq : w.books = sess.books :=
    books_eq_of_frame_stock hframes2.1 hstock_eq hnodup_sess
  have hnodupR : ((orderItemsOf (postUpdateStore s oid L sess) oid).map
      (fun r => r.book_id)).Nodup :=
    orderItemsOf_bids_nodup oid hwf1.2.2.1
  have hitems_eq : w.items
      = orderItemsOf (postUpdateStore s oid L sess) oid :=
    items_eq_of_frame_qty hframes2.2.1 hqty_eq hnodupR
  have hcov2 : ∀ r ∈ w.items, ∃ oi ∈ orderItemsOf
      (postUpdateStore s oid L sess) oid, oi.book_id = r.book_id := by
    intro r hr
    rw [hitems_eq] at hr
    exact ⟨r, hr, rfl⟩
  have hR2 : (removalLoop (requestedIds L) (requestedIds L)
      (orderItemsOf (postUpdateStore s oid L sess) oid) w).items
      = w.items.filter (fun r => (requestedIds L).contains r.book_id) :=
    removalLoop_items_covered hcov2
  have hR2i : (removalLoop (requestedIds L) (requestedIds L)
      (orderItemsOf (postUpdateStore s oid L sess) oid) w).items
      = w.items := by
    rw [hR2]
    apply List.filter_eq_self.mpr
    intro r hr
    rw [hitems_eq, hOI, hR] at hr
    exact (List.mem_filter.mp hr).2
  obtain ⟨hR2b, hR2n, hR2x⟩ := removalLoop_fields (requestedIds L)
    (orderItemsOf (postUpdateStore s oid L sess) oid) w
  have hwnew : w.newItems = [] := hwn
  obtain ⟨-, -, ex2, hnx2, -, hxx2⟩ := hframes2
  have hex2 : ex2 = [] := by
    have h0 : (initSession (postUpdateStore s oid L sess) oid).newItems
        = [] := rfl
    rw [h0, List.nil_append] at hnx2
    exact hnx2.symm.trans hwnew
  have hwx : w.next_id = s.next_item_id := by
    rw [hxx2, hex2]
    rfl
  have hA2 : (postUpdateStore s oid L sess).order_items.filter
      (fun r => !(r.order_id == oid))
      = s.order_items.filter (fun r => !(r.order_id == oid)) := by
    show ((s.order_items.filter (fun r => !(r.order_id == oid))
        ++ (removalLoop (requestedIds L) (requestedIds L)
            (orderItemsOf s oid) sess).items).filter
        (fun r => !(r.order_id == oid)))
      = s.order_items.filter (fun r => !(r.order_id == oid))
    rw [List.filter_append]
    have hidem : (s.order_items.filter (fun r => !(r.order_id == oid))).filter
        (fun r => !(r.order_id == oid))
        = s.order_items.filter (fun r => !(r.order_id == oid)) := by
      rw [List.filter_filter]
      apply List.filter_congr
      intro r _
      rw [Bool.and_self]
    have hnil2 : ((removalLoop (requestedIds L) (requestedIds L)
        (orderItemsOf s oid) sess).items).filter
        (fun r => !(r.order_id == oid)) = [] := by
      apply List.filter_eq_nil_iff.mpr
      intro r hr
      simp [hoidR r hr]
    rw [hidem, hnil2, List.append_nil]
  have hcommit2 : commitUpdate (postUpdateStore s oid L sess) oid
      (removalLoop (requestedIds L) (requestedIds L)
        (orderItemsOf (postUpdateStore s oid L sess) oid) w)
      = Except.ok (postUpdateStore s oid L sess) := by
    unfold commitUpdate
    have hnil : (removalLoop (requestedIds L) (requestedIds L)
        (orderItemsOf (postUpdateStore s oid L sess) oid) w).newItems
        = [] := hR2n.trans hwnew
    rw [hnil]
    rw [if_pos (by rfl)]
    rw [Except.ok.injEq]
    rw [hR2b, hR2i, hR2x, hbooks_eq, hwx, hA2, hitems_eq, hOI, List.append_nil]
    rfl
  refine ⟨?_, ?_⟩
  · unfold updateOrder
    rw [if_neg (by rw [hval]; simp)]
    have hfind2 : (postUpdateStore s oid L sess).orders.find?
        (fun o => o.order_id == oid) = some order := hfind
    rw [hfind2]
    dsimp only
    rw [if_neg (by simp [hown])]
    rw [hw]
    exact hcommit2
  · intro hnd
    show updDeltas (requestedIds L)
      ((orderItemsOf (postUpdateStore s oid L sess) oid).map
        (fun r => r.book_id)) oid L
      (initSession (postUpdateStore s oid L sess) oid)
      = L.map (fun _ => 0)
    apply updDeltas_zero hw hwn hnd
    intro i hi
    exact hv0qty i.book_id i.quantity (lastQty_nodup_eq hnd i hi)


/-- The committed store after updating demo order O1 (book 1 held at
quantity 4, stock 10) with the duplicated list [(book1, 5), (book1, 3)]:
the diff loop applies both occurrences in order, ending at quantity 3 and
stock 11. -/
def demoStoreDup : Store :=
  { books := [{ demoBook1 with stock_count := 11 }, demoBook2],
    orders := [demoOrder1],
    order_items := [{ demoItem1 with quantity := 3 }],
    next_item_id := 1 }

/-- C7 counterexample: with a duplicated book id in the list, the second
identical `update_order` call still succeeds and leaves the same final
state, but its per-item deltas are [2, -2], not all zero as the claim
states: the first occurrence raises the quantity from 3 back to 5, the
second lowers it again. -/
theorem claim_C7_counterexample :
    updateOrder demoStore "u1" "O1" [⟨demoBid1, 5⟩, ⟨demoBid1, 3⟩]
      = Except.ok demoStoreDup ∧
    updateOrder demoStoreDup "u1" "O1" [⟨demoBid1, 5⟩, ⟨demoBid1, 3⟩]
      = Except.ok demoStoreDup ∧
    updateDeltas demoStoreDup "O1" [⟨demoBid1, 5⟩, ⟨demoBid1, 3⟩] = [2, -2] ∧
    ([2, -2] : List Int)
      ≠ ([⟨demoBid1, 5⟩, ⟨demoBid1, 3⟩] : List OrderItemInput).map
          (fun _ => (0 : Int)) :=
  ⟨rfl, rfl, rfl, by decide⟩

/-- The committed store after updating demo order O1 to quantity 5. -/
def demoStoreQ5 : Store :=
  { books := [{ demoBook1 with stock_count := 9 }, demoBook2],
    orders := [demoOrder1],
    order_items := [{ demoItem1 with quantity := 5 }],
    next_item_id := 1 }

theorem claim_C7_witness :
    demoStore.WF ∧
    updateOrder demoStore "u1" "O1" [⟨demoBid1, 5⟩] = Except.ok demoStoreQ5 ∧
    updateOrder demoStoreQ5 "u1" "O1" [⟨demoBid1, 5⟩]
      = Except.ok demoStoreQ5 ∧
    updateDeltas demoStoreQ5 "O1" [⟨demoBid1, 5⟩] = [0] :=
  have happ := claim_C7_full_replace_idempotent demoStore "u1" "O1"
    [⟨demoBid1, 5⟩] demoStoreQ5 (by decide) rfl
  ⟨by decide, rfl, happ.1, (happ.2 (by decide)).trans rfl⟩

end AcaciaReads
